import Mathlib

/-!
Verification development for the abi-node blockchain simulation engine.

This file shallowly embeds the core of the abi-node repository in Lean 4:

* `src/state/store.ts` (StateStore: convention-based key/value state),
* `src/state/overrides.ts` (OverrideStore: generic and argument-specific
  response overrides),
* `src/abi/events.ts` (heuristic event matching and log synthesis),
* `src/abi/defaults.ts` (default-value synthesis; this source file is not
  part of the provided sources, so it is modelled from the specification),
* `src/blockchain/chain.ts` (the Blockchain engine: mempool, mining,
  transaction execution, reads, receipts).

JavaScript runtime conventions used by the source are made explicit:

* Decoded ABI values (viem's output) are modelled by the inductive `Value`
  (bigint, string, boolean, array, object, null).
* `JSON.stringify` is modelled by `jsonOfValue`.  The server installs a
  global `BigInt.prototype.toJSON` returning the decimal string
  (src/server.ts), so bigints serialize as quoted decimal strings.
* JS `Map` objects keyed by strings are modelled as functions
  `String → Option _` updated pointwise.
* The external library primitives `keccak256 ∘ toHex` (hashing of a string)
  is kept abstract: definitions that need it take an explicit
  `kec : String → String` argument.  `encodeAbiParameters` is modelled
  executably on the static head-encoded fragment of the ABI (uint/int,
  bool, address, fixed bytes); dynamic types yield `none`, modelling a
  region of the external library none of the verified claims depend on.
-/

namespace AbiNode

/-! ## JS string helpers -/

/-- JS `String.prototype.padStart(n, "0")`: left-pad with zeros up to length
`n` (no-op when the string is already at least that long). -/
def padStartZeros (n : Nat) (s : String) : String :=
  String.mk (List.replicate (n - s.length) '0') ++ s

/-- JS `String.prototype.padEnd(n, "0")`: right-pad with zeros. -/
def padEndZeros (n : Nat) (s : String) : String :=
  s ++ String.mk (List.replicate (n - s.length) '0')

/-- Lower-case hexadecimal digit character for `d < 16` (JS
`Number.prototype.toString(16)` digit alphabet). -/
def hexDigitChar (d : Nat) : Char :=
  if d < 10 then Char.ofNat (48 + d) else Char.ofNat (87 + d)

/-- Hex digits of `n`, least-significant first, with explicit fuel (any fuel
at least the digit count of `n` yields the full digit string; `fuel = n`
always suffices). -/
def natToHexRev (fuel n : Nat) : List Char :=
  match fuel with
  | 0 => []
  | f + 1 => if n = 0 then [] else hexDigitChar (n % 16) :: natToHexRev f (n / 16)

/-- JS `n.toString(16)` for a non-negative bigint: lower-case hex, `"0"` for
zero. -/
def natToHex (n : Nat) : String :=
  if n = 0 then "0" else String.mk (natToHexRev n n).reverse

/-- JS `i.toString(16)` for a bigint (negative values get a leading minus,
as in JavaScript). -/
def intToHex (i : Int) : String :=
  if i < 0 then "-" ++ natToHex i.natAbs else natToHex i.natAbs

/-- Value of one hex digit character, `none` for non-hex characters. -/
def hexCharVal (c : Char) : Option Nat :=
  if 48 ≤ c.toNat ∧ c.toNat ≤ 57 then some (c.toNat - 48)
  else if 97 ≤ c.toNat ∧ c.toNat ≤ 102 then some (c.toNat - 87)
  else if 65 ≤ c.toNat ∧ c.toNat ≤ 70 then some (c.toNat - 55)
  else none

/-- Parse a big-endian hex digit string; `none` if any character is not a
hex digit. -/
def hexParse (cs : List Char) : Option Nat :=
  cs.foldl (fun acc c =>
    match acc, hexCharVal c with
    | some a, some d => some (16 * a + d)
    | _, _ => none) (some 0)

/-- Parse a non-empty all-digit decimal string (the behavior of JS
`parseInt`-style suffix parsing and of `String.toNat?` on the inputs this
development meets); `none` otherwise. -/
def decParse (s : String) : Option Nat :=
  if s.data.isEmpty then none
  else
    s.data.foldl (fun acc c =>
      match acc with
      | some a => if 48 ≤ c.toNat ∧ c.toNat ≤ 57 then some (10 * a + (c.toNat - 48)) else none
      | none => none) (some 0)

/-- ASCII lower-casing of one character (JS `toLowerCase` on the ASCII
strings this development meets). -/
def jsCharToLower (c : Char) : Char :=
  if 65 ≤ c.toNat ∧ c.toNat ≤ 90 then Char.ofNat (c.toNat + 32) else c

/-- JS `String.prototype.toLowerCase`, via character lists. -/
def jsToLower (s : String) : String :=
  String.mk (s.data.map jsCharToLower)

/-- JS `String.prototype.startsWith`, via character lists (the strings of
this development are ASCII). -/
def jsStartsWith (s pre : String) : Bool :=
  pre.data.isPrefixOf s.data

/-- JS `String.prototype.endsWith`. -/
def jsEndsWith (s suf : String) : Bool :=
  suf.data.isSuffixOf s.data

/-- JS `String.prototype.slice(n)` (drop the first `n` characters). -/
def jsDrop (s : String) (n : Nat) : String :=
  String.mk (s.data.drop n)

/-- JS `String.prototype.includes`: substring containment. -/
def strIncludes (s sub : String) : Bool :=
  containsAux s.data sub.data
where
  containsAux : List Char → List Char → Bool
    | l, sub =>
      sub.isPrefixOf l ||
        match l with
        | [] => false
        | _ :: rest => containsAux rest sub

/-- Lower-case the first character, keep the rest (the
`fn.charAt(3).toLowerCase() + fn.slice(4)` idiom of the source). -/
def lowerFirst (s : String) : String :=
  match s.data with
  | [] => ""
  | c :: cs => String.mk (jsCharToLower c :: cs)

/-! ## Decoded JavaScript values -/

/-- A decoded ABI value as produced by viem's `decodeFunctionData`:
bigints for integer types, strings for addresses/bytes/strings, booleans,
arrays, plain objects (tuples), and null. -/
inductive Value where
  | vInt (i : Int)
  | vStr (s : String)
  | vBool (b : Bool)
  | vArr (elems : List Value)
  | vObj (fields : List (String × Value))
  | vNull
deriving Repr

/-- Minimal JSON string escaping (backslash and double quote); the values
appearing in this development never require more. -/
def jsonEscape (s : String) : String :=
  String.mk (s.data.flatMap fun c =>
    if c = '\\' ∨ c = '"' then ['\\', c] else [c])

mutual
/-- Model of `JSON.stringify` on decoded values, under the global
`BigInt.prototype.toJSON = () => this.toString()` patch installed by
src/server.ts (so bigints serialize as quoted decimal strings). -/
def jsonOfValue : Value → String
  | .vInt i => "\"" ++ toString i ++ "\""
  | .vStr s => "\"" ++ jsonEscape s ++ "\""
  | .vBool b => if b then "true" else "false"
  | .vArr xs => "[" ++ jsonOfList xs ++ "]"
  | .vObj fs => "\x7b" ++ jsonOfFields fs ++ "\x7d"
  | .vNull => "null"

def jsonOfList : List Value → String
  | [] => ""
  | [x] => jsonOfValue x
  | x :: y :: rest => jsonOfValue x ++ "," ++ jsonOfList (y :: rest)

def jsonOfFields : List (String × Value) → String
  | [] => ""
  | [(k, v)] => "\"" ++ jsonEscape k ++ "\":" ++ jsonOfValue v
  | (k, v) :: y :: rest =>
      "\"" ++ jsonEscape k ++ "\":" ++ jsonOfValue v ++ "," ++ jsonOfFields (y :: rest)
end

/-- JS `String(v)` coercion: identity on strings, decimal on bigints,
`"true"/"false"` on booleans, comma-join on arrays, `"[object Object]"` on
objects, `"null"` on null. -/
def jsToString : Value → String
  | .vStr s => s
  | .vInt i => toString i
  | .vBool b => if b then "true" else "false"
  | .vArr xs => String.intercalate "," (xs.map jsToStringShallow)
  | .vObj _ => "[object Object]"
  | .vNull => "null"
where
  /-- One non-recursive level of `String(v)` for array elements (the
  source never stringifies nested arrays on the paths modelled here). -/
  jsToStringShallow : Value → String
    | .vStr s => s
    | .vInt i => toString i
    | .vBool b => if b then "true" else "false"
    | .vObj _ => "[object Object]"
    | .vNull => "null"
    | .vArr _ => ""

/-! ## ABI model -/

/-- One ABI parameter descriptor: a name (possibly empty), a solidity type
string, an `indexed` flag (meaningful for event inputs) and tuple
components. -/
structure AbiParam where
  name : String
  type : String
  indexed : Bool := false
  components : List AbiParam := []

/-- An ABI function item. -/
structure AbiFunction where
  name : String
  inputs : List AbiParam := []
  outputs : List AbiParam := []

/-- An ABI event item. -/
structure AbiEvent where
  name : String
  inputs : List AbiParam := []

/-- One entry of a contract ABI (only functions and events are relevant to
the engine). -/
inductive AbiItem where
  | func (f : AbiFunction)
  | event (e : AbiEvent)

/-- A contract ABI: an ordered list of items. -/
abbrev Abi := List AbiItem

/-- Function `getAbiFunction` of src/blockchain/chain.ts: first function item with
the given name. -/
def getAbiFunction (abi : Abi) (name : String) : Option AbiFunction :=
  abi.findSome? fun item =>
    match item with
    | .func f => if f.name = name then some f else none
    | .event _ => none

/-- Calldata, abstracted to the information the engine extracts from it:
the 4-byte selector prefix (`data.slice(0, 10)` on the hex string) and the
function-call payload the bytes encode, when they are a well-formed
encoding (`none` models undecodable bytes). -/
structure CallData where
  selector : String
  payload : Option (String × List Value)

/-- viem's `decodeFunctionData` against a contract ABI: succeeds exactly
when the calldata is a well-formed encoding of a call to a function that
the ABI declares; selector identification is modelled by function name. -/
def decodeFunctionData (abi : Abi) (d : CallData) : Option (String × List Value) :=
  match d.payload with
  | some (fn, args) => if (getAbiFunction abi fn).isSome then some (fn, args) else none
  | none => none

/-! ## Default-value synthesis

The source file `src/abi/defaults.ts` is not part of the provided sources
(only its re-exports, call sites and tests are), so `generateDefaultValue`
is modelled from the specification. -/

/-- Split at the first `'['` of a reversed character list, returning the
characters before it and the remainder. -/
def splitAtBracketRev : List Char → Option (List Char × List Char)
  | [] => none
  | c :: rest =>
    if c = '[' then some ([], rest)
    else
      match splitAtBracketRev rest with
      | some (ins, base) => some (c :: ins, base)
      | none => none

/-- Strip one trailing array suffix from a type string:
`"uint256[3]" ↦ ("uint256", some 3)`, `"address[]" ↦ ("address", none)`,
no suffix ↦ `none`. -/
def stripSuffix (t : String) : Option (String × Option Nat) :=
  match t.data.reverse with
  | c :: rs =>
    if c = ']' then
      match splitAtBracketRev rs with
      | some (ins, base) => some (String.mk base.reverse, decParse (String.mk ins.reverse))
      | none => none
    else none
  | [] => none

theorem splitAtBracketRev_base_lt (l ins base : List Char)
    (h : splitAtBracketRev l = some (ins, base)) : base.length < l.length := by
  induction l generalizing ins base with
  | nil => simp [splitAtBracketRev] at h
  | cons c rest ih =>
    rw [splitAtBracketRev] at h
    by_cases hc : c = '['
    · rw [if_pos hc] at h
      simp only [Option.some.injEq, Prod.mk.injEq] at h
      rw [← h.2]
      simp
    · rw [if_neg hc] at h
      rcases hrec : splitAtBracketRev rest with _ | ⟨ins2, base2⟩
      · rw [hrec] at h; simp at h
      · rw [hrec] at h
        simp only [Option.some.injEq, Prod.mk.injEq] at h
        have := ih ins2 base2 hrec
        rw [← h.2]
        simp
        omega

theorem stripSuffix_length_lt (t b : String) (k : Option Nat)
    (h : stripSuffix t = some (b, k)) : b.length < t.length := by
  unfold stripSuffix at h
  rcases hr : t.data.reverse with _ | ⟨c, rs⟩
  · rw [hr] at h; simp at h
  · rw [hr] at h
    have h2 : (if c = ']' then
        match splitAtBracketRev rs with
        | some (ins, base) => some (String.mk base.reverse, decParse (String.mk ins.reverse))
        | none => none
      else none) = some (b, k) := h
    clear h
    rename' h2 => h
    by_cases hc : c = ']'
    · rw [if_pos hc] at h
      rcases hrec : splitAtBracketRev rs with _ | ⟨ins, base⟩
      · rw [hrec] at h; simp at h
      · rw [hrec] at h
        simp only [Option.some.injEq, Prod.mk.injEq] at h
        have hlt := splitAtBracketRev_base_lt rs ins base hrec
        have hb : b = String.mk base.reverse := h.1.symm
        have hlen : t.data.length = rs.length + 1 := by
          have := congrArg List.length hr
          simpa using this
        subst hb
        show (String.mk base.reverse).data.length < t.data.length
        simp [hlen]
        omega
    · rw [if_neg hc] at h
      simp at h

mutual
/-- Structural size measure on ABI parameters, counting type-string length
so that stripping an array suffix strictly decreases it. -/
def AbiParam.msize : AbiParam → Nat
  | ⟨_, t, _, comps⟩ => 1 + t.length + msizeList comps

def msizeList : List AbiParam → Nat
  | [] => 0
  | p :: rest => AbiParam.msize p + msizeList rest
end

theorem msize_le_msizeList (c : AbiParam) (l : List AbiParam) (h : c ∈ l) :
    AbiParam.msize c ≤ msizeList l := by
  induction l with
  | nil => simp at h
  | cons p rest ih =>
    rw [msizeList]
    rcases List.mem_cons.mp h with h | h
    · subst h; omega
    · have := ih h
      omega

theorem msize_pos (p : AbiParam) : 0 < AbiParam.msize p := by
  rcases p with ⟨n, t, i, comps⟩
  rw [AbiParam.msize]
  omega

/-- Modelled from the spec: `generateDefaultValue` of the missing source
file src/abi/defaults.ts (§4.1 of the specification), producing a
deterministic default value for one ABI output parameter: unsigned
integers ↦ 1, signed integers ↦ 0, bool ↦ true, address ↦ the dead-address
placeholder, string ↦ "mock", dynamic bytes ↦ empty, fixed bytesN ↦ N zero
bytes, dynamic arrays ↦ [], fixed arrays ↦ recursively generated element
defaults, tuples ↦ a record of recursively generated component defaults,
unknown types ↦ null. -/
def generateDefaultValue (p : AbiParam) : Value :=
  match hs : stripSuffix p.type with
  | some (_, none) => .vArr []
  | some (base, some k) =>
      .vArr (List.replicate k (generateDefaultValue { p with type := base }))
  | none =>
    if p.type = "tuple" then
      .vObj (p.components.attach.map fun c => (c.1.name, generateDefaultValue c.1))
    else if jsStartsWith p.type "uint" then .vInt 1
    else if jsStartsWith p.type "int" then .vInt 0
    else if p.type = "bool" then .vBool true
    else if p.type = "address" then .vStr "0x000000000000000000000000000000000000dEaD"
    else if p.type = "string" then .vStr "mock"
    else if p.type = "bytes" then .vStr "0x"
    else if jsStartsWith p.type "bytes" then
      match decParse (jsDrop p.type 5) with
      | some n => .vStr ("0x" ++ String.mk (List.replicate (2 * n) '0'))
      | none => .vNull
    else .vNull
termination_by AbiParam.msize p
decreasing_by
  · rcases p with ⟨n, t, i, comps⟩
    have := stripSuffix_length_lt t base (some k) hs
    simp only [AbiParam.msize]
    omega
  · rcases p with ⟨n, t, i, comps⟩
    have h1 := msize_le_msizeList c.1 comps c.2
    have h2 := msize_pos c.1
    simp only [AbiParam.msize]
    simp only [AbiParam.msize] at h1 h2
    omega

/-- Modelled from the spec: `generateDefaultValues` maps the generator over
a list of output parameters. -/
def generateDefaultValues (params : List AbiParam) : List Value :=
  params.map generateDefaultValue

/-! ## ABI parameter encoding

viem's `encodeAbiParameters` is an external library primitive.  It is
modelled executably on the static (head-encoded) fragment of the ABI used
by the verified claims: `uintN`/`intN`, `bool`, `address` and fixed-size
`bytesN`, each encoded as one 32-byte word.  For types outside this
fragment the model returns `none`; `none` also models the exceptions viem
raises on a type/value mismatch or an out-of-range value. -/

/-- Bit width of a `uint*` type string (`"uint"` alone means 256). -/
def uintBits (t : String) : Option Nat :=
  let suffix := jsDrop t 4
  if suffix = "" then some 256 else decParse suffix

/-- Bit width of an `int*` type string (`"int"` alone means 256). -/
def intBits (t : String) : Option Nat :=
  let suffix := jsDrop t 3
  if suffix = "" then some 256 else decParse suffix

/-- One 32-byte head word for a static ABI type, as 64 lower-case hex
characters; `none` for dynamic/unsupported types or mismatched values. -/
def encodeWord (t : String) (v : Value) : Option String :=
  if jsStartsWith t "uint" then
    match v, uintBits t with
    | .vInt i, some bits =>
        if 0 ≤ i ∧ i < (2 : Int) ^ bits then some (padStartZeros 64 (natToHex i.toNat))
        else none
    | _, _ => none
  else if jsStartsWith t "int" then
    match v, intBits t with
    | .vInt i, some bits =>
        if -((2 : Int) ^ (bits - 1)) ≤ i ∧ i < (2 : Int) ^ (bits - 1) then
          some (padStartZeros 64 (natToHex ((i % (2 : Int) ^ 256).toNat)))
        else none
    | _, _ => none
  else if t = "bool" then
    match v with
    | .vBool b => some (padStartZeros 64 (if b then "1" else "0"))
    | _ => none
  else if t = "address" then
    match v with
    | .vStr s =>
        if jsStartsWith s "0x" then some (padStartZeros 64 (jsToLower (jsDrop s 2))) else none
    | _ => none
  else if jsStartsWith t "bytes" ∧ t ≠ "bytes" then
    match v with
    | .vStr s => if jsStartsWith s "0x" then some (padEndZeros 64 (jsDrop s 2)) else none
    | _ => none
  else none

/-- Model of viem's `encodeAbiParameters` on the static fragment: the
concatenation of one head word per parameter, `0x`-prefixed. -/
def encodeAbiParameters (params : List AbiParam) (values : List Value) : Option String :=
  if params.length = values.length then
    ((params.zip values).mapM fun pv => encodeWord pv.1.type pv.2).map
      fun words => "0x" ++ String.join words
  else none

/-- Decode a single 32-byte word as an unsigned integer (the inverse of the
single-`uint256` case of `encodeAbiParameters`); used to state that log
data ABI-decodes to a given amount. -/
def decodeSingleUint256 (s : String) : Option Int :=
  if jsStartsWith s "0x" ∧ (jsDrop s 2).length = 64 then
    (hexParse (jsDrop s 2).data).map Int.ofNat
  else none

/-! ## src/abi/events.ts -/

/-- Function `findMatchingEvents`: events of the ABI that the name heuristic ties to
the called function (all comparisons on lower-cased names): exact match,
suffix match, substring match, and for `set`-prefixed functions the base
name alone or with a `set`/`updated`/`changed` suffix. -/
def findMatchingEvents (abi : Abi) (functionName : String) : List AbiEvent :=
  let normalizedFn := jsToLower functionName
  abi.filterMap fun item =>
    match item with
    | .func _ => none
    | .event e =>
      let eventName := jsToLower e.name
      if eventName = normalizedFn then some e
      else if jsEndsWith eventName normalizedFn then some e
      else if strIncludes eventName normalizedFn then some e
      else if jsStartsWith normalizedFn "set" ∧ normalizedFn.length > 3 then
        let baseName := jsDrop normalizedFn 3
        if eventName = baseName ∨ eventName = baseName ++ "set" ∨
            eventName = baseName ++ "updated" ∨ eventName = baseName ++ "changed"
        then some e else none
      else none

/-- The `argMap` of `generateEventLog`: function input names (lower-cased)
mapped to the positional call arguments; on duplicate names the later
entry wins, as with `Map.prototype.set`. -/
def buildArgMap (names : List String) (args : List Value) (key : String) : Option Value :=
  List.lookup key ((names.map jsToLower).zip args).reverse

/-- The per-event-input value selection of `generateEventLog`: (1) inputs
named `from`/`sender` take the transaction sender; (2) a (non-empty) name
present in the arg map takes that argument; (3) the `to` and
`amount`/`value` alias fallbacks; (4) otherwise a synthesized default. -/
def eventParamValue (txFrom : String) (am : String → Option Value) (input : AbiParam) : Value :=
  let inputName := jsToLower input.name
  if inputName = "from" ∨ inputName = "sender" then .vStr txFrom
  else if inputName ≠ "" ∧ (am inputName).isSome then (am inputName).getD .vNull
  else if inputName = "to" then
    match (am "to").orElse (fun _ => (am "recipient").orElse fun _ => am "dst") with
    | some v => v
    | none => generateDefaultValue input
  else if inputName = "amount" ∨ inputName = "value" then
    match (am "amount").orElse (fun _ => (am "value").orElse fun _ => am "wad") with
    | some v => v
    | none => generateDefaultValue input
  else generateDefaultValue input

/-- Topic encoding of one indexed event value: `0x`-strings are left-padded
to 32 bytes, bigints are hex-encoded and padded, booleans become a padded
1/0, and anything else is content-hashed. -/
def topicOfValue (kec : String → String) (v : Value) : String :=
  match v with
  | .vStr s =>
      if jsStartsWith s "0x" then "0x" ++ padStartZeros 64 (jsDrop s 2)
      else kec (jsToString v)
  | .vInt i => "0x" ++ padStartZeros 64 (intToHex i)
  | .vBool b => "0x" ++ padStartZeros 64 (if b then "1" else "0")
  | v => kec (jsToString v)

/-- Function `generateEventLog`: topics and data for one matched event.  `kec`
abstracts the external `keccak256 ∘ toHex` primitive.  The
`contractAddress` parameter is received but unused, as in the source. -/
def generateEventLog (kec : String → String) (event : AbiEvent)
    (_contractAddress txFrom : String) (functionArgs : List Value)
    (functionInputNames : List String) : List String × String :=
  let inputs := event.inputs
  let nonIndexedInputs := inputs.filter fun i => !i.indexed
  let am := buildArgMap functionInputNames functionArgs
  let allValues := inputs.map (eventParamValue txFrom am)
  let eventSignature :=
    event.name ++ "(" ++ String.intercalate "," (inputs.map (·.type)) ++ ")"
  let topics := kec eventSignature ::
    ((inputs.zip allValues).filterMap fun pv =>
      if pv.1.indexed then some (topicOfValue kec pv.2) else none)
  let data :=
    if nonIndexedInputs.length > 0 then
      let nonIndexedValues := (inputs.zip allValues).filterMap fun pv =>
        if pv.1.indexed then none else some pv.2
      (encodeAbiParameters nonIndexedInputs nonIndexedValues).getD "0x"
    else "0x"
  (topics, data)

/-! ## src/state/store.ts -/

/-- The in-memory contract state: a `Map<string, unknown[]>` keyed by
composite string keys, modelled as a pointwise-updated function. -/
structure StateStore where
  state : String → Option (List Value)

def StateStore.empty : StateStore := ⟨fun _ => none⟩

/-- Method `normalizeFnName`: bare `set`/`get` share the `_default` bucket;
`setFoo`/`getFoo` (length > 3) both normalize to `foo`; anything else is
unchanged. -/
def StateStore.normalizeFnName (fn : String) : String :=
  if fn = "set" ∨ fn = "get" then "_default"
  else if jsStartsWith fn "set" ∧ fn.length > 3 then lowerFirst (jsDrop fn 3)
  else if jsStartsWith fn "get" ∧ fn.length > 3 then lowerFirst (jsDrop fn 3)
  else fn

/-- Method `makeKey`: lower-cased contract address, normalized function name, and
the JSON serialization of the key arguments. -/
def StateStore.makeKey (contract fn : String) (keyArgs : List Value) : String :=
  jsToLower contract ++ ":" ++ StateStore.normalizeFnName fn ++ ":" ++
    jsonOfValue (.vArr keyArgs)

def StateStore.set (s : StateStore) (contract fn : String)
    (keyArgs : List Value) (values : List Value) : StateStore :=
  ⟨fun k => if k = StateStore.makeKey contract fn keyArgs then some values else s.state k⟩

def StateStore.get (s : StateStore) (contract fn : String)
    (keyArgs : List Value) : Option (List Value) :=
  s.state (StateStore.makeKey contract fn keyArgs)

def StateStore.clear (_ : StateStore) : StateStore := StateStore.empty

/-! ## src/state/overrides.ts -/

inductive OverrideType where
  | value
  | revert
deriving DecidableEq, Repr

/-- A resolved override: a single value, multiple values, or a revert
reason. -/
structure ResolvedOverride where
  type : OverrideType
  value : Option String := none
  values : Option (List String) := none
  revertReason : Option String := none
deriving DecidableEq, Repr

/-- The override store: a generic map keyed `"address:functionName"` and an
argument-specific map keyed `"address:functionName(args)"` (both with
lower-cased addresses), modelled as association lists where the first
binding for a key wins. -/
structure OverrideStore where
  overrides : List (String × ResolvedOverride)
  argOverrides : List (String × ResolvedOverride)

/-- Method `argsToString`: decoded call arguments normalized for matching —
bigints as decimal, `0x`-strings lower-cased, booleans as `true`/`false`,
anything else via JS string coercion — joined with commas. -/
def OverrideStore.argsToString (args : List Value) : String :=
  String.intercalate "," (args.map fun arg =>
    match arg with
    | .vInt i => toString i
    | .vStr s => if jsStartsWith s "0x" then jsToLower s else s
    | .vBool b => if b then "true" else "false"
    | v => jsToString v)

/-- Method `OverrideStore.get`: with non-empty args supplied, the
argument-specific entry is consulted first; the generic entry is the
fallback. -/
def OverrideStore.get (os : OverrideStore) (address functionName : String)
    (args : Option (List Value)) : Option ResolvedOverride :=
  let normalizedAddr := jsToLower address
  let argResult : Option ResolvedOverride :=
    match args with
    | some as =>
      if as.length > 0 then
        os.argOverrides.lookup
          (normalizedAddr ++ ":" ++ functionName ++ "(" ++
            OverrideStore.argsToString as ++ ")")
      else none
    | none => none
  match argResult with
  | some ov => some ov
  | none => os.overrides.lookup (normalizedAddr ++ ":" ++ functionName)

/-- Method `OverrideStore.has`: mirrors `get`. -/
def OverrideStore.has (os : OverrideStore) (address functionName : String)
    (args : Option (List Value)) : Bool :=
  let normalizedAddr := jsToLower address
  let argHit : Bool :=
    match args with
    | some as =>
      if as.length > 0 then
        (os.argOverrides.lookup
          (normalizedAddr ++ ":" ++ functionName ++ "(" ++
            OverrideStore.argsToString as ++ ")")).isSome
      else false
    | none => false
  argHit ||
    (os.overrides.lookup (normalizedAddr ++ ":" ++ functionName)).isSome

/-! ## src/abi/registry.ts -/

structure ContractEntry where
  address : String
  name : String
  abi : Abi

/-- The registry: a `Map<string, ContractEntry>` keyed by lower-cased
addresses. -/
structure ContractRegistry where
  contracts : List (String × ContractEntry)

def ContractRegistry.get (r : ContractRegistry) (address : String) : Option ContractEntry :=
  r.contracts.lookup (jsToLower address)

def ContractRegistry.register (r : ContractRegistry) (address name : String)
    (abi : Abi) : ContractRegistry :=
  ⟨(jsToLower address, ⟨jsToLower address, name, abi⟩) :: r.contracts⟩

/-! ## src/blockchain/chain.ts -/

/-- The 64 zero hex characters (the `"0".repeat(64)` idiom). -/
def zeros64 : String := String.mk (List.replicate 64 '0')

def GENESIS_HASH : String := "0x" ++ zeros64

def CHAIN_ID : Nat := 31337

/-- Fallback responses for common selectors not in the ABI, from the
source's `SELECTOR_FALLBACKS` table (ERC-165 `supportsInterface`, ERC-20
`name`/`symbol`/`decimals`/`totalSupply`/`balanceOf`/`allowance`, ERC-721
`ownerOf`). -/
def SELECTOR_FALLBACKS : List (String × String) := [
  ("0x01ffc9a7", "0x" ++ zeros64),
  ("0x06fdde03", "0x000000000000000000000000000000000000000000000000000000000000002000000000000000000000000000000000000000000000000000000000000000044d6f636b00000000000000000000000000000000000000000000000000000000"),
  ("0x95d89b41", "0x000000000000000000000000000000000000000000000000000000000000002000000000000000000000000000000000000000000000000000000000000000044d4f434b00000000000000000000000000000000000000000000000000000000"),
  ("0x313ce567", "0x0000000000000000000000000000000000000000000000000000000000000012"),
  ("0x18160ddd", "0x00000000000000000000000000000000000000000000d3c21bcecceda1000000"),
  ("0x70a08231", "0x" ++ zeros64),
  ("0xdd62ed3e", "0x" ++ zeros64),
  ("0x6352211e", "0x0000000000000000000000000000000000000000000000000000000000000000")]

def generateBlockHash (blockNumber : Nat) : String :=
  "0x" ++ padStartZeros 64 (natToHex blockNumber)

def generateTxHash (nonce : Nat) : String :=
  "0x" ++ padStartZeros 64 (natToHex nonce)

/-- A transaction (the `from` field is named `fromAddr`, since `from` is a
Lean keyword). -/
structure Transaction where
  hash : String
  fromAddr : String
  toAddr : String
  data : CallData
  value : Int
  nonce : Nat
  contractName : Option String := none
  functionName : Option String := none
  args : Option (List Value) := none

structure PendingTransaction where
  tx : Transaction
  addedAt : Nat

structure Log where
  address : String
  topics : List String
  data : String
  blockNumber : Nat
  blockHash : String
  transactionHash : String
  transactionIndex : Nat
  logIndex : Nat
deriving DecidableEq, Repr

structure TransactionReceipt where
  transactionHash : String
  transactionIndex : Nat
  blockNumber : Nat
  blockHash : String
  fromAddr : String
  toAddr : String
  gasUsed : Nat
  cumulativeGasUsed : Nat
  status : String
  logs : List Log
deriving DecidableEq, Repr

structure Block where
  number : Nat
  hash : String
  parentHash : String
  timestamp : Nat
  transactions : List Transaction
  receipts : List TransactionReceipt

/-- Engine state: the fields of the `Blockchain` class (the mining timer
and the block-mined callback are I/O-only and not modelled). -/
structure Blockchain where
  registry : ContractRegistry
  blockTime : Nat
  overrides : Option OverrideStore
  blocks : List Block
  mempool : List PendingTransaction
  state : StateStore
  txNonce : Nat
  receipts : String → Option TransactionReceipt

/-- The constructor: genesis block (number 0, sentinel hashes) is created
at engine construction. -/
def Blockchain.init (registry : ContractRegistry) (blockTime : Nat)
    (overrides : Option OverrideStore) (time : Nat) : Blockchain :=
  { registry := registry, blockTime := blockTime, overrides := overrides,
    blocks := [{ number := 0, hash := GENESIS_HASH, parentHash := GENESIS_HASH,
                 timestamp := time, transactions := [], receipts := [] }],
    mempool := [], state := StateStore.empty, txNonce := 0,
    receipts := fun _ => none }

def dummyBlock : Block :=
  { number := 0, hash := "", parentHash := "", timestamp := 0,
    transactions := [], receipts := [] }

/-- Accessor `latestBlock`, i.e. `this.blocks[this.blocks.length - 1]`; the blocks list is never empty
in any reachable state (the constructor pushes genesis). -/
def Blockchain.latestBlock (c : Blockchain) : Block :=
  c.blocks.getLastD dummyBlock

def Blockchain.blockNumber (c : Blockchain) : Nat :=
  c.latestBlock.number

def Blockchain.isKnownContract (c : Blockchain) (address : String) : Bool :=
  (c.registry.get address).isSome

def Blockchain.setOverrides (c : Blockchain) (overrides : Option OverrideStore) :
    Blockchain :=
  { c with overrides := overrides }

/-- Failures `Blockchain.call` can raise (src/errors.ts):
`UnknownContractError`, `RevertError`; `jsError` models exceptions thrown
by the external encoding/parsing primitives. -/
inductive CallError where
  | unknownContract (address : String)
  | revert (reason : String)
  | jsError
deriving DecidableEq, Repr

/-- JS `BigInt(string)`: decimal (optionally negative) or `0x`-hex; `none`
models the TypeError thrown on other inputs. -/
def jsBigInt (s : String) : Option Int :=
  if jsStartsWith s "0x" then (hexParse (jsDrop s 2).data).map Int.ofNat
  else if jsStartsWith s "-" then (decParse (jsDrop s 1)).map fun n => -(n : Int)
  else (decParse s).map Int.ofNat

/-- Method `parseOverrideValue`: coerce an override string to the value shape of
the target ABI type. -/
def parseOverrideValue (t : String) (value : String) : Option Value :=
  if jsStartsWith t "uint" ∨ jsStartsWith t "int" then (jsBigInt value).map .vInt
  else if t = "bool" then some (.vBool (value = "true" ∨ value = "1"))
  else if t = "address" then some (.vStr value)
  else if t = "string" then some (.vStr value)
  else if jsStartsWith t "bytes" then
    some (.vStr (if jsStartsWith value "0x" then value else "0x" ++ value))
  else some (.vStr value)

def dummyParam : AbiParam := { name := "", type := "", indexed := false, components := [] }

/-- Method `applyOverride`: a revert override raises; a value override is parsed
per output type (missing positions default to `"0"`; a single value with
multiple outputs fills the first output and synthesizes defaults for the
rest); with no value at all, defaults are encoded. -/
def applyOverride (ov : ResolvedOverride) (abiFunc : AbiFunction) :
    Except CallError String :=
  if ov.type = .revert then .error (.revert (ov.revertReason.getD ""))
  else
    let outputs := abiFunc.outputs
    let hasValues : Bool := match ov.values with
      | some vs => vs.length > 0
      | none => false
    if hasValues then
      let vs := ov.values.getD []
      match ((List.range outputs.length).zip outputs).mapM
          (fun p => parseOverrideValue p.2.type (vs.getD p.1 "0")) with
      | some values =>
        match encodeAbiParameters outputs values with
        | some s => .ok s
        | none => .error .jsError
      | none => .error .jsError
    else
      match ov.value with
      | some v =>
        match parseOverrideValue (outputs.headD dummyParam).type v with
        | none => .error .jsError
        | some fv =>
          let values :=
            if outputs.length = 1 then [fv]
            else fv :: (outputs.drop 1).map generateDefaultValue
          match encodeAbiParameters outputs values with
          | some s => .ok s
          | none => .error .jsError
      | none =>
        match encodeAbiParameters outputs (generateDefaultValues outputs) with
        | some s => .ok s
        | none => .error .jsError

/-- Method `Blockchain.call` (the read path, `eth_call`): unknown contract raises;
undecodable calldata degrades to a selector-table fallback or `"0x"`; a
function with no outputs returns `"0x"`; otherwise overrides (consulted
WITHOUT the decoded arguments, exactly as in the source, which passes only
`(to, functionName)` to `has`/`get`), then stored state keyed by the
decoded arguments, then synthesized defaults. -/
def Blockchain.call (c : Blockchain) (toAddr : String) (data : CallData) :
    Except CallError String :=
  match c.registry.get toAddr with
  | none => .error (.unknownContract toAddr)
  | some contract =>
    match decodeFunctionData contract.abi data with
    | none =>
      let selector := jsToLower data.selector
      match SELECTOR_FALLBACKS.lookup selector with
      | some fallback => .ok fallback
      | none => .ok "0x"
    | some (fn, args) =>
      match getAbiFunction contract.abi fn with
      | none => .ok "0x"
      | some abiFunc =>
        if abiFunc.outputs.length = 0 then .ok "0x"
        else
          let stateOrDefault : Except CallError String :=
            let storedValues := c.state.get toAddr fn args
            let values := storedValues.getD (generateDefaultValues abiFunc.outputs)
            match encodeAbiParameters abiFunc.outputs values with
            | some s => .ok s
            | none => .error .jsError
          match c.overrides with
          | some os =>
            if os.has toAddr fn none then
              match os.get toAddr fn none with
              | some ov => applyOverride ov abiFunc
              -- unreachable: `has` true implies `get` is some (the source
              -- uses a non-null assertion `get(...)!` here)
              | none => .ok "0x"
            else stateOrDefault
          | none => stateOrDefault

/-- Method `executeTransaction`: decode against the target ABI (unknown contract
or decode failure yield no state change and no logs); a call with
arguments stores state under the setter convention (single argument: the
value with no keys; otherwise the last argument is the value, the rest the
key); then one log per heuristically matched event, with `logIndex` the
index within that transaction's matched-event list. -/
def executeTransaction (kec : String → String) (registry : ContractRegistry)
    (store : StateStore) (tx : Transaction) (blockNumber : Nat)
    (blockHash : String) (txIndex : Nat) : StateStore × List Log :=
  match registry.get tx.toAddr with
  | none => (store, [])
  | some contract =>
    match decodeFunctionData contract.abi tx.data with
    | none => (store, [])
    | some (fn, args) =>
      let store2 :=
        if args.length > 0 then
          if args.length = 1 then store.set tx.toAddr fn [] args
          else store.set tx.toAddr fn args.dropLast [args.getLastD .vNull]
        else store
      let matchingEvents := findMatchingEvents contract.abi fn
      let functionInputNames :=
        ((getAbiFunction contract.abi fn).map fun f => f.inputs.map (·.name)).getD []
      let logs := matchingEvents.enum.map fun ie =>
        let td := generateEventLog kec ie.2 tx.toAddr tx.fromAddr args functionInputNames
        { address := tx.toAddr, topics := td.1, data := td.2,
          blockNumber := blockNumber, blockHash := blockHash,
          transactionHash := tx.hash, transactionIndex := txIndex,
          logIndex := ie.1 : Log }
      (store2, logs)

/-- The transaction-execution loop of `mineBlock`: execute each pending
transaction in order (threading the state store) and create one receipt
per transaction with success status and fixed nominal gas. -/
def execPending (kec : String → String) (registry : ContractRegistry)
    (store : StateStore) (txs : List Transaction) (i blockNumber : Nat)
    (blockHash : String) : StateStore × List TransactionReceipt :=
  match txs with
  | [] => (store, [])
  | tx :: rest =>
    let p := executeTransaction kec registry store tx blockNumber blockHash i
    let receipt : TransactionReceipt :=
      { transactionHash := tx.hash, transactionIndex := i,
        blockNumber := blockNumber, blockHash := blockHash,
        fromAddr := tx.fromAddr, toAddr := tx.toAddr, gasUsed := 21000,
        cumulativeGasUsed := 21000 * (i + 1), status := "0x1", logs := p.2 }
    let q := execPending kec registry p.1 rest (i + 1) blockNumber blockHash
    (q.1, receipt :: q.2)

/-- Method `mineBlock`: drain the whole mempool, execute in submission order,
link the new block to the previous latest block's hash, append it, and
record the receipts. -/
def Blockchain.mineBlock (kec : String → String) (c : Blockchain) (time : Nat) :
    Blockchain × Block :=
  let parentBlock := c.latestBlock
  let blockNumber := parentBlock.number + 1
  let blockHash := generateBlockHash blockNumber
  let txs := c.mempool.map (·.tx)
  let r := execPending kec c.registry c.state txs 0 blockNumber blockHash
  let block : Block :=
    { number := blockNumber, hash := blockHash, parentHash := parentBlock.hash,
      timestamp := time, transactions := txs, receipts := r.2 }
  let receipts2 := r.2.foldl
    (fun m rc => fun h => if h = rc.transactionHash then some rc else m h) c.receipts
  let c2 : Blockchain :=
    { c with
      mempool := [],
      state := r.1,
      blocks := c.blocks ++ [block],
      receipts := receipts2 }
  (c2, block)

/-- Method `sendTransaction`: assign the next nonce, derive the hash, best-effort
decode for display (failures swallowed), enqueue, and in instant mode
(`blockTime = 0`) mine immediately.  Returns the transaction hash. -/
def Blockchain.sendTransaction (kec : String → String) (c : Blockchain)
    (fromAddr toAddr : String) (data : CallData) (value : Int) (time : Nat) :
    String × Blockchain :=
  let nonce := c.txNonce
  let hash := generateTxHash nonce
  let disp : Option String × Option String × Option (List Value) :=
    match c.registry.get toAddr with
    | some contract =>
      match decodeFunctionData contract.abi data with
      | some fa => (some contract.name, some fa.1, some fa.2)
      | none => (none, none, none)
    | none => (none, none, none)
  let tx : Transaction :=
    { hash := hash, fromAddr := fromAddr, toAddr := toAddr, data := data,
      value := value, nonce := nonce,
      contractName := disp.1, functionName := disp.2.1, args := disp.2.2 }
  let c1 : Blockchain :=
    { c with
      mempool := c.mempool ++ [{ tx := tx, addedAt := time }],
      txNonce := nonce + 1 }
  let c2 := if c.blockTime = 0 then (Blockchain.mineBlock kec c1 time).1 else c1
  (hash, c2)

def Blockchain.getTransactionReceipt (c : Blockchain) (hash : String) :
    Option TransactionReceipt :=
  c.receipts hash

/-- Engine states reachable from construction by submitting transactions,
mining, hot-swapping the override store, and the hot-reload path (registry
rebuild with state clear; blocks, mempool and nonce are preserved). -/
inductive Reachable (kec : String → String) : Blockchain → Prop where
  | init (registry : ContractRegistry) (blockTime : Nat)
      (overrides : Option OverrideStore) (time : Nat) :
      Reachable kec (Blockchain.init registry blockTime overrides time)
  | send (c : Blockchain) (fromAddr toAddr : String) (data : CallData)
      (value : Int) (time : Nat) : Reachable kec c →
      Reachable kec (Blockchain.sendTransaction kec c fromAddr toAddr data value time).2
  | mine (c : Blockchain) (time : Nat) : Reachable kec c →
      Reachable kec (Blockchain.mineBlock kec c time).1
  | setOverrides (c : Blockchain) (ov : Option OverrideStore) : Reachable kec c →
      Reachable kec (Blockchain.setOverrides c ov)
  | reload (c : Blockchain) (registry : ContractRegistry)
      (ov : Option OverrideStore) : Reachable kec c →
      Reachable kec
        { c with
          registry := registry,
          state := StateStore.empty,
          overrides := ov }


/-! ## General helper lemmas -/

theorem strMkData (s : String) : String.mk s.data = s := rfl

theorem strExt (a b : String) (h : a.data = b.data) : a = b :=
  (strMkData a).symm.trans ((congrArg String.mk h).trans (strMkData b))

theorem jsStartsWith_append (p s : String) : jsStartsWith (p ++ s) p = true := by
  simp [jsStartsWith, String.data_append, List.isPrefixOf_iff_prefix, List.prefix_append]

theorem jsDrop_append (p s : String) : jsDrop (p ++ s) p.length = s := by
  unfold jsDrop
  rw [String.data_append]
  show String.mk (List.drop p.data.length (p.data ++ s.data)) = s
  rw [List.drop_left]

theorem strLength_append (p s : String) : (p ++ s).length = p.length + s.length :=
  String.length_append p s

theorem append_right_cancel_str (a b r : String) (h : a ++ r = b ++ r) : a = b := by
  apply strExt
  have hd := congrArg String.data h
  rw [String.data_append, String.data_append] at hd
  exact List.append_cancel_right hd

/-! ## Hex print/parse round trip -/

def hexStep (acc : Option Nat) (c : Char) : Option Nat :=
  match acc, hexCharVal c with
  | some a, some d => some (16 * a + d)
  | _, _ => none

theorem hexParse_eq_foldl (cs : List Char) : hexParse cs = cs.foldl hexStep (some 0) := by
  unfold hexParse hexStep
  rfl

theorem hexCharVal_hexDigitChar : ∀ d < 16, hexCharVal (hexDigitChar d) = some d := by
  decide

theorem foldl_hexStep_natToHexRev (f : Nat) : ∀ n a, n ≤ f →
    ((natToHexRev f n).reverse.foldl hexStep (some a)) =
      some (a * 16 ^ (natToHexRev f n).length + n) := by
  induction f with
  | zero =>
    intro n a hn
    interval_cases n
    simp [natToHexRev]
  | succ f ih =>
    intro n a hn
    by_cases h0 : n = 0
    · subst h0; simp [natToHexRev]
    · rw [natToHexRev]
      simp only [h0, if_neg, ite_false]
      rw [List.reverse_cons, List.foldl_append]
      have hdiv : n / 16 ≤ f := by
        have h1 : n / 16 < n := Nat.div_lt_self (Nat.pos_of_ne_zero h0) (by omega)
        omega
      rw [ih (n / 16) a hdiv]
      show hexStep _ _ = _
      unfold hexStep
      rw [hexCharVal_hexDigitChar (n % 16) (Nat.mod_lt n (by omega))]
      simp only [List.length_cons]
      congr 1
      have hmd : 16 * (n / 16) + n % 16 = n := by
        have := Nat.mod_add_div n 16
        omega
      ring_nf
      omega

theorem foldl_hexStep_zeros (k : Nat) :
    (List.replicate k '0').foldl hexStep (some 0) = some 0 := by
  induction k with
  | zero => rfl
  | succ k ih =>
    rw [List.replicate_succ, List.foldl_cons]
    have h0 : hexStep (some 0) '0' = some 0 := by decide
    rw [h0, ih]

theorem natToHexRev_length_le (f : Nat) : ∀ n k, n < 16 ^ k →
    (natToHexRev f n).length ≤ k := by
  induction f with
  | zero => intro n k _; simp [natToHexRev]
  | succ f ih =>
    intro n k hn
    by_cases h0 : n = 0
    · subst h0; simp [natToHexRev]
    · rw [natToHexRev]
      simp only [h0, if_neg, ite_false, List.length_cons]
      have hk : 1 ≤ k := by
        by_contra hk
        have : k = 0 := by omega
        subst this
        simp at hn
        omega
      have hdivlt : n / 16 < 16 ^ (k - 1) := by
        rw [Nat.div_lt_iff_lt_mul (by omega)]
        calc n < 16 ^ k := hn
          _ = 16 ^ (k - 1) * 16 := by
            rw [← pow_succ]
            congr 1
            omega
      have := ih (n / 16) (k - 1) hdivlt
      omega

theorem hexParse_natToHex_padded (n : Nat) (hn : n < 2 ^ 256) :
    hexParse (padStartZeros 64 (natToHex n)).data = some n ∧
    (padStartZeros 64 (natToHex n)).length = 64 := by
  have h2 : (2 : Nat) ^ 256 = 16 ^ 64 := by
    norm_num [show (16 : Nat) = 2 ^ 4 from rfl, ← pow_mul]
  by_cases h0 : n = 0
  · subst h0; constructor
    · decide
    · decide
  · have hlen : (natToHex n).length ≤ 64 := by
      unfold natToHex
      rw [if_neg h0]
      show (natToHexRev n n).reverse.length ≤ 64
      rw [List.length_reverse]
      exact natToHexRev_length_le n n 64 (h2 ▸ hn)
    constructor
    · unfold padStartZeros
      rw [hexParse_eq_foldl, String.data_append]
      show List.foldl hexStep (some 0)
        ((String.mk (List.replicate (64 - (natToHex n).length) '0')).data ++ (natToHex n).data) =
        some n
      rw [List.foldl_append]
      show List.foldl hexStep
        (List.foldl hexStep (some 0) (List.replicate (64 - (natToHex n).length) '0'))
        (natToHex n).data = some n
      rw [foldl_hexStep_zeros]
      unfold natToHex
      rw [if_neg h0]
      show (natToHexRev n n).reverse.foldl hexStep (some 0) = some n
      rw [foldl_hexStep_natToHexRev n n 0 le_rfl]
      simp
    · unfold padStartZeros
      rw [strLength_append]
      show (List.replicate (64 - (natToHex n).length) '0').length + (natToHex n).length = 64
      rw [List.length_replicate]
      omega

theorem decodeSingleUint256_encode (n : Nat) (hn : n < 2 ^ 256) :
    decodeSingleUint256 ("0x" ++ padStartZeros 64 (natToHex n)) = some ((n : Nat) : Int) := by
  obtain ⟨hp, hl⟩ := hexParse_natToHex_padded n hn
  unfold decodeSingleUint256
  have hd : jsDrop ("0x" ++ padStartZeros 64 (natToHex n)) 2 = padStartZeros 64 (natToHex n) :=
    jsDrop_append "0x" _
  rw [hd]
  rw [if_pos ⟨jsStartsWith_append "0x" _, hl⟩]
  rw [hp]
  rfl

/-! ## Unfolding equations for the default-value generator -/

theorem gdv_scalar_uint256 (nm : String) (ix : Bool) :
    generateDefaultValue { name := nm, type := "uint256", indexed := ix, components := [] } =
      .vInt 1 := by
  rw [generateDefaultValue.eq_def]; rfl

theorem gdv_scalar_uint8 (nm : String) (ix : Bool) :
    generateDefaultValue { name := nm, type := "uint8", indexed := ix, components := [] } =
      .vInt 1 := by
  rw [generateDefaultValue.eq_def]; rfl

theorem gdv_scalar_int256 (nm : String) (ix : Bool) :
    generateDefaultValue { name := nm, type := "int256", indexed := ix, components := [] } =
      .vInt 0 := by
  rw [generateDefaultValue.eq_def]; rfl

theorem gdv_scalar_bool (nm : String) (ix : Bool) :
    generateDefaultValue { name := nm, type := "bool", indexed := ix, components := [] } =
      .vBool true := by
  rw [generateDefaultValue.eq_def]; rfl

theorem gdv_scalar_address (nm : String) (ix : Bool) :
    generateDefaultValue { name := nm, type := "address", indexed := ix, components := [] } =
      .vStr "0x000000000000000000000000000000000000dEaD" := by
  rw [generateDefaultValue.eq_def]; rfl

theorem gdv_scalar_string (nm : String) (ix : Bool) :
    generateDefaultValue { name := nm, type := "string", indexed := ix, components := [] } =
      .vStr "mock" := by
  rw [generateDefaultValue.eq_def]; rfl

theorem gdv_scalar_bytes32 (nm : String) (ix : Bool) :
    generateDefaultValue { name := nm, type := "bytes32", indexed := ix, components := [] } =
      .vStr ("0x" ++ String.mk (List.replicate 64 '0')) := by
  rw [generateDefaultValue.eq_def]; rfl

theorem gdv_scalar_bytes (nm : String) (ix : Bool) :
    generateDefaultValue { name := nm, type := "bytes", indexed := ix, components := [] } =
      .vStr "0x" := by
  rw [generateDefaultValue.eq_def]; rfl

theorem gdv_tuple (nm : String) (ix : Bool) (comps : List AbiParam) :
    generateDefaultValue { name := nm, type := "tuple", indexed := ix, components := comps } =
      .vObj (comps.map fun c => (c.name, generateDefaultValue c)) := by
  rw [generateDefaultValue.eq_def]
  show (if ("tuple" : String) = "tuple" then
    Value.vObj (comps.attach.map fun c => (c.1.name, generateDefaultValue c.1))
    else _) = _
  rw [if_pos rfl]
  congr 1
  exact List.attach_map_coe comps fun c => (c.name, generateDefaultValue c)

theorem gdv_uint256_arr3 (nm : String) (ix : Bool) :
    generateDefaultValue { name := nm, type := "uint256[3]", indexed := ix, components := [] } =
      .vArr [.vInt 1, .vInt 1, .vInt 1] := by
  rw [generateDefaultValue.eq_def]
  show Value.vArr (List.replicate 3 (generateDefaultValue
    { name := nm, type := "uint256", indexed := ix, components := [] })) = _
  rw [gdv_scalar_uint256]
  rfl

theorem gdv_address_dynarr (nm : String) (ix : Bool) :
    generateDefaultValue { name := nm, type := "address[]", indexed := ix, components := [] } =
      .vArr [] := by
  rw [generateDefaultValue.eq_def]
  rfl

/-- Claim C9: the default-value generator is pure, total and deterministic
(it is a Lean function, so determinism and freedom from side effects are
inherent), and produces exactly the documented values: 1 for unsigned
integers, 0 for signed integers, true for bool, the dead-address
placeholder for address, "mock" for string, 32 zero bytes for bytes32,
empty bytes for dynamic bytes, [1,1,1] for uint256[3], [] for dynamic
arrays, and a record of recursively generated component defaults for
tuples, recursing through nested tuples. -/
theorem claim_C9 :
    (∀ nm ix, generateDefaultValue { name := nm, type := "uint256", indexed := ix, components := [] } = .vInt 1) ∧
    (∀ nm ix, generateDefaultValue { name := nm, type := "uint8", indexed := ix, components := [] } = .vInt 1) ∧
    (∀ nm ix, generateDefaultValue { name := nm, type := "int256", indexed := ix, components := [] } = .vInt 0) ∧
    (∀ nm ix, generateDefaultValue { name := nm, type := "bool", indexed := ix, components := [] } = .vBool true) ∧
    (∀ nm ix, generateDefaultValue { name := nm, type := "address", indexed := ix, components := [] } =
      .vStr "0x000000000000000000000000000000000000dEaD") ∧
    (∀ nm ix, generateDefaultValue { name := nm, type := "string", indexed := ix, components := [] } = .vStr "mock") ∧
    (∀ nm ix, generateDefaultValue { name := nm, type := "bytes32", indexed := ix, components := [] } =
      .vStr ("0x" ++ String.mk (List.replicate 64 '0'))) ∧
    (∀ nm ix, generateDefaultValue { name := nm, type := "bytes", indexed := ix, components := [] } = .vStr "0x") ∧
    (∀ nm ix, generateDefaultValue { name := nm, type := "uint256[3]", indexed := ix, components := [] } =
      .vArr [.vInt 1, .vInt 1, .vInt 1]) ∧
    (∀ nm ix, generateDefaultValue { name := nm, type := "address[]", indexed := ix, components := [] } = .vArr []) ∧
    (∀ nm ix comps, generateDefaultValue { name := nm, type := "tuple", indexed := ix, components := comps } =
      .vObj (comps.map fun c => (c.name, generateDefaultValue c))) ∧
    generateDefaultValue
      { name := "", type := "tuple", indexed := false,
        components := [
          { name := "id", type := "uint256", indexed := false, components := [] },
          { name := "user", type := "tuple", indexed := false,
            components := [
              { name := "owner", type := "address", indexed := false, components := [] },
              { name := "active", type := "bool", indexed := false, components := [] }] }] } =
      .vObj [("id", .vInt 1),
             ("user", .vObj [("owner", .vStr "0x000000000000000000000000000000000000dEaD"),
                             ("active", .vBool true)])] := by
  refine ⟨gdv_scalar_uint256, gdv_scalar_uint8, gdv_scalar_int256, gdv_scalar_bool,
    gdv_scalar_address, gdv_scalar_string, gdv_scalar_bytes32, gdv_scalar_bytes,
    gdv_uint256_arr3, gdv_address_dynarr, gdv_tuple, ?_⟩
  rw [gdv_tuple]
  simp only [List.map_cons, List.map_nil]
  rw [gdv_scalar_uint256, gdv_tuple]
  simp only [List.map_cons, List.map_nil]
  rw [gdv_scalar_address, gdv_scalar_bool]


/-! ## Concrete fixtures used by witnesses and counterexamples -/

/-- Identity instantiation of the abstract `keccak256 ∘ toHex` primitive,
used to evaluate concrete scenarios. -/
def kecId : String → String := fun s => s

def addr1W : String := "0x0000000000000000000000000000000000000001"

def addr2W : String := "0x0000000000000000000000000000000000000002"

def addrUnregW : String := "0xdddddddddddddddddddddddddddddddddddddddd"

def senderW : String := "0x0000000000000000000000000000000000000099"

def uintOutW : AbiParam := { name := "", type := "uint256", indexed := false, components := [] }

def noopFnW : AbiFunction := { name := "noop", inputs := [], outputs := [] }

def transferEventW : AbiEvent :=
  { name := "Transfer",
    inputs := [
      { name := "from", type := "address", indexed := true, components := [] },
      { name := "to", type := "address", indexed := true, components := [] },
      { name := "amount", type := "uint256", indexed := false, components := [] }] }

def transferFnW : AbiFunction :=
  { name := "transfer",
    inputs := [
      { name := "to", type := "address", indexed := false, components := [] },
      { name := "amount", type := "uint256", indexed := false, components := [] }],
    outputs := [{ name := "", type := "bool", indexed := false, components := [] }] }

def tokenAbiW : Abi := [
  .func { name := "balanceOf",
          inputs := [{ name := "account", type := "address", indexed := false, components := [] }],
          outputs := [uintOutW] },
  .func transferFnW,
  .func noopFnW,
  .event transferEventW]

def regW : ContractRegistry := ContractRegistry.register ⟨[]⟩ addr1W "Token" tokenAbiW

def revertOvW : ResolvedOverride :=
  { type := .revert, value := none, values := none, revertReason := some "arg-specific" }

/-- An override store whose ONLY entry is an argument-specific override for
`balanceOf(senderW)` on `addr1W` (no generic entry). -/
def osArgOnlyW : OverrideStore :=
  ⟨[], [(addr1W ++ ":balanceOf(" ++ senderW ++ ")", revertOvW)]⟩

def noopRevertOvW : ResolvedOverride :=
  { type := .revert, value := none, values := none, revertReason := some "nope" }

/-- An override store with a generic revert override entry for `noop`. -/
def osNoopRevertW : OverrideStore :=
  ⟨[(addr1W ++ ":noop", noopRevertOvW)], []⟩

/-! ## Shared engine lemmas -/

/-- The read path once decoding succeeded and no generic override fires:
`call` encodes the stored values for `(to, fn, args)` if present, the
synthesized defaults otherwise. -/
theorem call_resolves (c : Blockchain) (toA : String) (d : CallData)
    (entry : ContractEntry) (fn : String) (args : List Value) (f : AbiFunction)
    (hreg : c.registry.get toA = some entry)
    (hdec : decodeFunctionData entry.abi d = some (fn, args))
    (hf : getAbiFunction entry.abi fn = some f)
    (hout : f.outputs.length ≠ 0)
    (hov : ∀ os, c.overrides = some os → OverrideStore.has os toA fn none = false) :
    Blockchain.call c toA d =
      (match encodeAbiParameters f.outputs
        ((StateStore.get c.state toA fn args).getD (generateDefaultValues f.outputs)) with
       | some s => .ok s
       | none => .error .jsError) := by
  unfold Blockchain.call
  simp only [hreg, hdec, hf]
  rw [if_neg hout]
  rcases hos : c.overrides with _ | os
  · rfl
  · simp [hov os hos]

/-- Claim C8: for a registered contract and calldata that fails to decode,
`call` never raises: it returns the canned value of the well-known-selector
fallback table when the selector is present there, and `"0x"` otherwise. -/
theorem claim_C8 (c : Blockchain) (toA : String) (d : CallData)
    (entry : ContractEntry)
    (hreg : c.registry.get toA = some entry)
    (hdec : decodeFunctionData entry.abi d = none) :
    Blockchain.call c toA d =
      .ok ((SELECTOR_FALLBACKS.lookup (jsToLower d.selector)).getD "0x") := by
  unfold Blockchain.call
  simp only [hreg, hdec]
  rcases hl : SELECTOR_FALLBACKS.lookup (jsToLower d.selector) with _ | fb
  · simp only [hl]
    rfl
  · simp only [hl]
    rfl

theorem claim_C8_witness :
    Blockchain.call (Blockchain.init regW 1 none 0) addr1W ⟨"0x313CE567", none⟩ =
      .ok ((SELECTOR_FALLBACKS.lookup (jsToLower "0x313CE567")).getD "0x") ∧
    ((SELECTOR_FALLBACKS.lookup (jsToLower "0x313CE567")).getD "0x") =
      "0x0000000000000000000000000000000000000000000000000000000000000012" ∧
    Blockchain.call (Blockchain.init regW 1 none 0) addr1W ⟨"0x12345678", none⟩ =
      .ok ((SELECTOR_FALLBACKS.lookup (jsToLower "0x12345678")).getD "0x") ∧
    ((SELECTOR_FALLBACKS.lookup (jsToLower "0x12345678")).getD "0x") = "0x" :=
  ⟨claim_C8 _ _ _ ⟨addr1W, "Token", tokenAbiW⟩ rfl rfl, by decide,
   claim_C8 _ _ _ ⟨addr1W, "Token", tokenAbiW⟩ rfl rfl, by decide⟩

/-- Claim C10: when decoding succeeds but the function declares no outputs
(or no function entry of that name exists), `call` returns `"0x"` without
consulting the override store — in particular a configured revert override
never fires on this path (the engine state `c`, and hence its override
store, is arbitrary here). -/
theorem claim_C10 (c : Blockchain) (toA : String) (d : CallData)
    (entry : ContractEntry) (fn : String) (args : List Value)
    (hreg : c.registry.get toA = some entry)
    (hdec : decodeFunctionData entry.abi d = some (fn, args))
    (hout : getAbiFunction entry.abi fn = none ∨
      ∃ f, getAbiFunction entry.abi fn = some f ∧ f.outputs = []) :
    Blockchain.call c toA d = .ok "0x" := by
  unfold Blockchain.call
  simp only [hreg, hdec]
  rcases hout with hnone | ⟨f, hf, hfo⟩
  · simp only [hnone]
  · simp only [hf]
    simp [hfo]

theorem claim_C10_witness :
    Blockchain.call (Blockchain.init regW 1 (some osNoopRevertW) 0) addr1W
      ⟨"0xaaaaaaaa", some ("noop", [])⟩ = .ok "0x" :=
  claim_C10 _ _ _ ⟨addr1W, "Token", tokenAbiW⟩ "noop" [] rfl rfl (Or.inr ⟨noopFnW, rfl, rfl⟩)

/-- Claim C4 (amended): reading an unregistered address raises the
unknown-contract error for every calldata, but the write path does NOT
fail: `sendTransaction` to an unregistered address succeeds — it returns
the next transaction hash and (in interval mode) appends the transaction
to the mempool with no decoded display fields — and executing such a
transaction is a no-op that produces no state change and no logs (mining
still gives it a success receipt). -/
theorem claim_C4 (c : Blockchain) (toA : String) (d : CallData)
    (h : c.registry.get toA = none) :
    Blockchain.call c toA d = .error (.unknownContract toA) ∧
    (∀ kec fromA v time,
      (Blockchain.sendTransaction kec c fromA toA d v time).1 = generateTxHash c.txNonce ∧
      (c.blockTime ≠ 0 →
        (Blockchain.sendTransaction kec c fromA toA d v time).2.mempool =
          c.mempool ++
            [{ tx := { hash := generateTxHash c.txNonce, fromAddr := fromA,
                       toAddr := toA, data := d, value := v, nonce := c.txNonce,
                       contractName := none, functionName := none, args := none },
               addedAt := time }])) ∧
    (∀ kec store tx bn bh i, tx.toAddr = toA →
      executeTransaction kec c.registry store tx bn bh i = (store, [])) := by
  refine ⟨?_, ?_, ?_⟩
  · unfold Blockchain.call
    simp only [h]
  · intro kec fromA v time
    constructor
    · rfl
    · intro hbt
      unfold Blockchain.sendTransaction
      simp only [h, if_neg hbt]
  · intro kec store tx bn bh i htx
    unfold executeTransaction
    simp only [htx, h]

def cUnregW : Blockchain := Blockchain.init ⟨[]⟩ 1 none 0

/-- Claim C4, counterexample to the write half as stated: submitting a
write to an unregistered address does NOT fail with the unknown-contract
condition — it succeeds, returning the transaction hash, and the mined
transaction receives a success receipt. -/
theorem claim_C4_counterexample :
    (Blockchain.sendTransaction kecId cUnregW senderW addrUnregW ⟨"0xdeadbeef", none⟩ 0 1).1 =
      generateTxHash 0 ∧
    ((((Blockchain.sendTransaction kecId cUnregW senderW addrUnregW
        ⟨"0xdeadbeef", none⟩ 0 1).2).mineBlock kecId 2).1.receipts
      (generateTxHash 0)).map (fun r => r.status) = some "0x1" := by
  constructor
  · rfl
  · decide

theorem claim_C4_witness :
    Blockchain.call cUnregW addrUnregW ⟨"0xdeadbeef", none⟩ =
      .error (.unknownContract addrUnregW) ∧
    (Blockchain.sendTransaction kecId cUnregW senderW addrUnregW ⟨"0xdeadbeef", none⟩ 0 1).1 =
      generateTxHash cUnregW.txNonce :=
  ⟨(claim_C4 cUnregW addrUnregW ⟨"0xdeadbeef", none⟩ rfl).1,
   ((claim_C4 cUnregW addrUnregW ⟨"0xdeadbeef", none⟩ rfl).2.1 kecId senderW 0 1).1⟩


/-- A transaction to the registered token contract whose calldata does not
decode (junk payload). -/
def junkTxW : Transaction :=
  { hash := generateTxHash 0, fromAddr := senderW, toAddr := addr1W,
    data := ⟨"0xbadbadba", none⟩, value := 0, nonce := 0 }

/-- Engine state with the junk transaction pending. -/
def cJunkW : Blockchain :=
  { registry := regW, blockTime := 1, overrides := none,
    blocks := [{ number := 0, hash := GENESIS_HASH, parentHash := GENESIS_HASH,
                 timestamp := 0, transactions := [], receipts := [] }],
    mempool := [{ tx := junkTxW, addedAt := 0 }],
    state := StateStore.empty, txNonce := 1, receipts := fun _ => none }

/-! ## Mining lemmas -/

theorem mineBlock_blocks (kec : String → String) (c : Blockchain) (time : Nat) :
    (Blockchain.mineBlock kec c time).1.blocks =
      c.blocks ++ [(Blockchain.mineBlock kec c time).2] := rfl

theorem mineBlock_parentHash (kec : String → String) (c : Blockchain) (time : Nat) :
    (Blockchain.mineBlock kec c time).2.parentHash =
      (c.blocks.getLastD dummyBlock).hash := rfl

theorem mineBlock_number (kec : String → String) (c : Blockchain) (time : Nat) :
    (Blockchain.mineBlock kec c time).2.number = c.latestBlock.number + 1 := rfl

/-- Claim C7: mining a transaction whose calldata fails to decode against
the target contract's ABI leaves the state store unchanged, attaches zero
logs, and still creates exactly one receipt with success status. -/
theorem claim_C7 (kec : String → String) (c : Blockchain) (tx : Transaction)
    (t0 time : Nat) (entry : ContractEntry)
    (hmem : c.mempool = [{ tx := tx, addedAt := t0 }])
    (hreg : c.registry.get tx.toAddr = some entry)
    (hdec : decodeFunctionData entry.abi tx.data = none) :
    (Blockchain.mineBlock kec c time).1.state = c.state ∧
    (Blockchain.mineBlock kec c time).2.receipts =
      [{ transactionHash := tx.hash, transactionIndex := 0,
         blockNumber := c.latestBlock.number + 1,
         blockHash := generateBlockHash (c.latestBlock.number + 1),
         fromAddr := tx.fromAddr, toAddr := tx.toAddr, gasUsed := 21000,
         cumulativeGasUsed := 21000, status := "0x1", logs := [] }] ∧
    (Blockchain.mineBlock kec c time).1.receipts tx.hash =
      some { transactionHash := tx.hash, transactionIndex := 0,
             blockNumber := c.latestBlock.number + 1,
             blockHash := generateBlockHash (c.latestBlock.number + 1),
             fromAddr := tx.fromAddr, toAddr := tx.toAddr, gasUsed := 21000,
             cumulativeGasUsed := 21000, status := "0x1", logs := [] } := by
  have hexec : executeTransaction kec c.registry c.state tx (c.latestBlock.number + 1)
      (generateBlockHash (c.latestBlock.number + 1)) 0 = (c.state, []) := by
    unfold executeTransaction
    simp only [hreg, hdec]
  unfold Blockchain.mineBlock execPending
  simp only [hmem, List.map_cons, List.map_nil, hexec]
  refine ⟨rfl, ?_, ?_⟩
  · simp [execPending]
  · simp [execPending]

def pingAbiW : Abi := [
  .func { name := "ping", inputs := [], outputs := [] },
  .event { name := "Ping", inputs := [] }]

def addrPingW : String := "0x00000000000000000000000000000000000000b1"

def regPingW : ContractRegistry := ContractRegistry.register ⟨[]⟩ addrPingW "P" pingAbiW

def pingTxW (n : Nat) : Transaction :=
  { hash := generateTxHash n, fromAddr := senderW, toAddr := addrPingW,
    data := ⟨"0x11111111", some ("ping", [])⟩, value := 0, nonce := n }

/-- Engine state with two decodable `ping()` transactions pending, each of
which synthesizes exactly one `Ping()` log. -/
def cPingW : Blockchain :=
  { registry := regPingW, blockTime := 1, overrides := none,
    blocks := [{ number := 0, hash := GENESIS_HASH, parentHash := GENESIS_HASH,
                 timestamp := 0, transactions := [], receipts := [] }],
    mempool := [{ tx := pingTxW 0, addedAt := 0 }, { tx := pingTxW 1, addedAt := 0 }],
    state := StateStore.empty, txNonce := 2, receipts := fun _ => none }

theorem claim_C7_witness :
    ((Blockchain.mineBlock kecId cJunkW 2).1.state = cJunkW.state ∧
      (Blockchain.mineBlock kecId cJunkW 2).2.receipts =
        [{ transactionHash := junkTxW.hash, transactionIndex := 0,
           blockNumber := cJunkW.latestBlock.number + 1,
           blockHash := generateBlockHash (cJunkW.latestBlock.number + 1),
           fromAddr := junkTxW.fromAddr, toAddr := junkTxW.toAddr, gasUsed := 21000,
           cumulativeGasUsed := 21000, status := "0x1", logs := [] }] ∧
      (Blockchain.mineBlock kecId cJunkW 2).1.receipts junkTxW.hash =
        some { transactionHash := junkTxW.hash, transactionIndex := 0,
               blockNumber := cJunkW.latestBlock.number + 1,
               blockHash := generateBlockHash (cJunkW.latestBlock.number + 1),
               fromAddr := junkTxW.fromAddr, toAddr := junkTxW.toAddr, gasUsed := 21000,
               cumulativeGasUsed := 21000, status := "0x1", logs := [] }) :=
  claim_C7 kecId cJunkW junkTxW 0 2 ⟨addr1W, "Token", tokenAbiW⟩ rfl rfl rfl

/-! ## Log-index lemmas (claim C5) -/

theorem executeTransaction_logIndex (kec : String → String)
    (reg : ContractRegistry) (store : StateStore) (tx : Transaction)
    (bn : Nat) (bh : String) (i : Nat) (st : StateStore) (logs : List Log)
    (h : executeTransaction kec reg store tx bn bh i = (st, logs)) (j : Nat)
    (hj : j < logs.length) : (logs.get ⟨j, hj⟩).logIndex = j := by
  unfold executeTransaction at h
  rcases hr : reg.get tx.toAddr with _ | contract
  · simp only [hr, Prod.mk.injEq] at h
    rw [← h.2] at hj
    simp at hj
  · simp only [hr] at h
    rcases hd : decodeFunctionData contract.abi tx.data with _ | fa
    · simp only [hd, Prod.mk.injEq] at h
      rw [← h.2] at hj
      simp at hj
    · rcases fa with ⟨fn, args⟩
      simp only [hd, Prod.mk.injEq] at h
      have hlogs := h.2
      subst hlogs
      rw [List.get_eq_getElem, List.getElem_map, List.getElem_enum]

theorem execPending_receipts_logs (kec : String → String) (reg : ContractRegistry) :
    ∀ (txs : List Transaction) (store : StateStore) (i bn : Nat) (bh : String)
      (r : TransactionReceipt),
      r ∈ (execPending kec reg store txs i bn bh).2 →
      ∃ tx idx store2,
        r.logs = (executeTransaction kec reg store2 tx bn bh idx).2 := by
  intro txs
  induction txs with
  | nil => intro store i bn bh r hr; simp [execPending] at hr
  | cons tx rest ih =>
    intro store i bn bh r hr
    rw [execPending] at hr
    simp only [List.mem_cons] at hr
    rcases hr with hr | hr
    · subst hr
      exact ⟨tx, i, store, rfl⟩
    · exact ih _ _ _ _ r hr

/-- Claim C5 (amended): within each mined block, the `logIndex` of every
log equals its position within its OWN transaction's synthesized log list —
indices restart at 0 for each transaction rather than running sequentially
across the block. -/
theorem claim_C5 (kec : String → String) (c : Blockchain) (time : Nat)
    (r : TransactionReceipt)
    (hr : r ∈ (Blockchain.mineBlock kec c time).2.receipts) (j : Nat)
    (hj : j < r.logs.length) : (r.logs.get ⟨j, hj⟩).logIndex = j := by
  have hrec : (Blockchain.mineBlock kec c time).2.receipts =
      (execPending kec c.registry c.state (c.mempool.map (·.tx)) 0
        (c.latestBlock.number + 1)
        (generateBlockHash (c.latestBlock.number + 1))).2 := rfl
  rw [hrec] at hr
  obtain ⟨tx, idx, store2, hlogs⟩ :=
    execPending_receipts_logs kec c.registry _ _ _ _ _ r hr
  revert hj
  rw [hlogs]
  intro hj
  exact executeTransaction_logIndex kec c.registry store2 tx _ _ idx _ _ rfl j hj

/-- The second receipt of the two-`ping()` block. -/
def rPing1W : TransactionReceipt :=
  { transactionHash := generateTxHash 1, transactionIndex := 1,
    blockNumber := 1, blockHash := generateBlockHash 1, fromAddr := senderW,
    toAddr := addrPingW, gasUsed := 21000, cumulativeGasUsed := 42000,
    status := "0x1",
    logs := [{ address := addrPingW, topics := ["Ping()"], data := "0x",
               blockNumber := 1, blockHash := generateBlockHash 1,
               transactionHash := generateTxHash 1, transactionIndex := 1,
               logIndex := 0 }] }

theorem claim_C5_witness :
    rPing1W ∈ (Blockchain.mineBlock kecId cPingW 9).2.receipts ∧
    (rPing1W.logs.get ⟨0, by decide⟩).logIndex = 0 :=
  ⟨by decide, claim_C5 kecId cPingW 9 rPing1W (by decide) 0 (by decide)⟩

/-- Claim C5, counterexample to the block-wide numbering as stated: a block
with two transactions, each synthesizing one log, carries log indices
`[[0], [0]]` — the second transaction's log restarts at 0 instead of
continuing the block-wide sequence `[[0], [1]]`. -/
theorem claim_C5_counterexample :
    ((Blockchain.mineBlock kecId cPingW 9).2.receipts.map fun r =>
      r.logs.map (fun l => l.logIndex)) = [[0], [0]] ∧
    ¬ (((Blockchain.mineBlock kecId cPingW 9).2.receipts.map fun r =>
      r.logs.map (fun l => l.logIndex)) = [[0], [1]]) := by
  constructor
  · decide
  · decide

/-! ## Chain-shape invariant (claim C3) -/

/-- Predicate `linksB prev l` holds when each block of `l` carries the hash of its
predecessor as `parentHash`, starting from `prev`. -/
def linksB : Block → List Block → Bool
  | _, [] => true
  | prev, b :: rest => (b.parentHash == prev.hash) && linksB b rest

/-- The ledger invariant: nonempty, starts at block number 0 whose
`parentHash` is the all-zero sentinel, and each later block's `parentHash`
is the hash of the block immediately before it. -/
def chainOkB : List Block → Bool
  | [] => false
  | b0 :: rest => (b0.number == 0) && (b0.parentHash == GENESIS_HASH) && linksB b0 rest

theorem linksB_append (l : List Block) : ∀ (prev b : Block),
    linksB prev l = true → b.parentHash = ((prev :: l).getLastD dummyBlock).hash →
    linksB prev (l ++ [b]) = true := by
  induction l with
  | nil =>
    intro prev b _ hb
    rw [List.getLastD_cons] at hb
    rw [show ([] : List Block).getLastD prev = prev from rfl] at hb
    simp [linksB, hb]
  | cons x xs ih =>
    intro prev b h hb
    rw [List.cons_append, linksB]
    rw [linksB] at h
    simp only [Bool.and_eq_true] at h ⊢
    refine ⟨h.1, ih x b h.2 ?_⟩
    rw [List.getLastD_cons] at hb
    exact hb

theorem chainOkB_append (bs : List Block) (b : Block) (h : chainOkB bs = true)
    (hb : b.parentHash = (bs.getLastD dummyBlock).hash) :
    chainOkB (bs ++ [b]) = true := by
  rcases bs with _ | ⟨b0, rest⟩
  · simp [chainOkB] at h
  · rw [List.cons_append, chainOkB]
    rw [chainOkB] at h
    simp only [Bool.and_eq_true] at h ⊢
    exact ⟨h.1, linksB_append rest b0 b h.2 hb⟩

theorem chainOk_reachable (kec : String → String) (c : Blockchain)
    (h : Reachable kec c) : chainOkB c.blocks = true := by
  induction h with
  | init registry blockTime overrides time =>
    simp [Blockchain.init, chainOkB, linksB]
  | send c' fromA toA d v time hr ih =>
    show chainOkB (Blockchain.sendTransaction kec c' fromA toA d v time).2.blocks = true
    unfold Blockchain.sendTransaction
    by_cases hbt : c'.blockTime = 0
    · simp only [if_pos hbt]
      rw [mineBlock_blocks]
      exact chainOkB_append _ _ ih (mineBlock_parentHash kec _ time)
    · simp only [if_neg hbt]
      exact ih
  | mine c' time hr ih =>
    show chainOkB (Blockchain.mineBlock kec c' time).1.blocks = true
    rw [mineBlock_blocks]
    exact chainOkB_append _ _ ih (mineBlock_parentHash kec c' time)
  | setOverrides c' ov hr ih => exact ih
  | reload c' registry ov hr ih => exact ih

/-- Claim C3: in every reachable engine state the block ledger satisfies
the chain invariant (nonempty; genesis block 0 carries the all-zero
sentinel parent hash; every later block's `parentHash` is the hash of the
block immediately before it), and `mineBlock` — even with an empty mempool
— appends exactly one block whose number is the previous latest block's
number plus 1, with an empty transaction list when the mempool was
empty. -/
theorem claim_C3 (kec : String → String) (c : Blockchain) (h : Reachable kec c)
    (time : Nat) :
    chainOkB c.blocks = true ∧
    (Blockchain.mineBlock kec c time).1.blocks =
      c.blocks ++ [(Blockchain.mineBlock kec c time).2] ∧
    (Blockchain.mineBlock kec c time).2.number = c.latestBlock.number + 1 ∧
    (c.mempool = [] → (Blockchain.mineBlock kec c time).2.transactions = []) :=
  ⟨chainOk_reachable kec c h, mineBlock_blocks kec c time, mineBlock_number kec c time,
   fun hm => by simp [Blockchain.mineBlock, hm]⟩

theorem claim_C3_witness :
    chainOkB (Blockchain.init ⟨[]⟩ 1 none 0).blocks = true ∧
    (Blockchain.mineBlock kecId (Blockchain.init ⟨[]⟩ 1 none 0) 5).1.blocks =
      (Blockchain.init ⟨[]⟩ 1 none 0).blocks ++
        [(Blockchain.mineBlock kecId (Blockchain.init ⟨[]⟩ 1 none 0) 5).2] ∧
    (Blockchain.mineBlock kecId (Blockchain.init ⟨[]⟩ 1 none 0) 5).2.number =
      (Blockchain.init ⟨[]⟩ 1 none 0).latestBlock.number + 1 ∧
    ((Blockchain.init ⟨[]⟩ 1 none 0).mempool = [] →
      (Blockchain.mineBlock kecId (Blockchain.init ⟨[]⟩ 1 none 0) 5).2.transactions = []) :=
  claim_C3 kecId (Blockchain.init ⟨[]⟩ 1 none 0) (Reachable.init ⟨[]⟩ 1 none 0) 5


set_option maxRecDepth 4000 in
/-- Claim C1 (code-bug evidence): the override store itself resolves an
argument-specific override with the claimed precedence when the decoded
arguments are supplied (first conjunct), but `Blockchain.call` invokes
`has`/`get` WITHOUT the decoded arguments (src/blockchain/chain.ts passes
only `(to, functionName)`), so with an argument-specific revert override
configured for `balanceOf(senderW)` — and no generic override — the read
does not revert and does not return the override: it falls through to the
synthesized default 1 (third conjunct). -/
theorem claim_C1 :
    OverrideStore.get osArgOnlyW addr1W "balanceOf" (some [Value.vStr senderW]) =
      some revertOvW ∧
    OverrideStore.has osArgOnlyW addr1W "balanceOf" none = false ∧
    Blockchain.call (Blockchain.init regW 1 (some osArgOnlyW) 0) addr1W
      ⟨"0x70a08231", some ("balanceOf", [Value.vStr senderW])⟩ =
      .ok "0x0000000000000000000000000000000000000000000000000000000000000001" := by
  refine ⟨by decide, by decide, ?_⟩
  rw [call_resolves (Blockchain.init regW 1 (some osArgOnlyW) 0) addr1W
    ⟨"0x70a08231", some ("balanceOf", [Value.vStr senderW])⟩
    ⟨addr1W, "Token", tokenAbiW⟩ "balanceOf" [Value.vStr senderW]
    { name := "balanceOf",
      inputs := [{ name := "account", type := "address", indexed := false, components := [] }],
      outputs := [uintOutW] }
    rfl rfl rfl (by decide) ?_]
  · have hstate : StateStore.get (Blockchain.init regW 1 (some osArgOnlyW) 0).state
        addr1W "balanceOf" [Value.vStr senderW] = none := rfl
    rw [hstate]
    rw [Option.getD_none]
    have hdef : generateDefaultValues [uintOutW] = [Value.vInt 1] := by
      unfold generateDefaultValues uintOutW
      rw [List.map_cons, List.map_nil, gdv_scalar_uint256]
    rw [hdef]
    have he : encodeAbiParameters
        ({ name := "balanceOf",
           inputs := [{ name := "account", type := "address", indexed := false,
                        components := [] }],
           outputs := [uintOutW] } : AbiFunction).outputs [Value.vInt 1] =
        some "0x0000000000000000000000000000000000000000000000000000000000000001" := by
      decide
    rw [he]
  · intro os hos
    have h2 : some osArgOnlyW = some os := hos
    have hoseq : os = osArgOnlyW := by
      injection h2 with h
      exact h.symm
    subst hoseq
    decide


/-! ## Event-log lemmas (claim C6) -/

theorem topicOfValue_hexStr (kec : String → String) (s : String)
    (hs : jsStartsWith s "0x" = true) :
    topicOfValue kec (Value.vStr s) = "0x" ++ padStartZeros 64 (jsDrop s 2) := by
  simp only [topicOfValue]
  rw [if_pos hs]

theorem encodeWord_uint256 (amtI : Int) (hlo : 0 ≤ amtI) (hhi : amtI < (2 : Int) ^ 256) :
    encodeWord "uint256" (Value.vInt amtI) =
      some (padStartZeros 64 (natToHex amtI.toNat)) := by
  unfold encodeWord
  rw [if_pos (show jsStartsWith "uint256" "uint" = true by decide)]
  show (if 0 ≤ amtI ∧ amtI < (2 : Int) ^ 256 then
    some (padStartZeros 64 (natToHex amtI.toNat)) else none) = _
  rw [if_pos ⟨hlo, hhi⟩]

theorem strEmpty_append (s : String) : "" ++ s = s := by
  apply strExt
  rw [String.data_append]
  rfl

theorem encodeAbiParameters_single (p : AbiParam) (v : Value) (w : String)
    (hw : encodeWord p.type v = some w) :
    encodeAbiParameters [p] [v] = some ("0x" ++ w) := by
  unfold encodeAbiParameters
  simp [hw, String.join, List.mapM.loop, strEmpty_append]

/-- Full evaluation of `generateEventLog` for the canonical
`Transfer(address indexed from, address indexed to, uint256 amount)` event
against a `transfer(to, amount)` call: topic 0 is the hashed signature,
topic 1 the padded transaction sender, topic 2 the padded `to` argument,
and the data the 32-byte big-endian encoding of `amount`. -/
theorem generateEventLog_transfer (kec : String → String) (addrA S toV : String)
    (amtI : Int) (hS : jsStartsWith S "0x" = true)
    (hto : jsStartsWith toV "0x" = true)
    (hlo : 0 ≤ amtI) (hhi : amtI < (2 : Int) ^ 256) :
    generateEventLog kec transferEventW addrA S
      [Value.vStr toV, Value.vInt amtI] ["to", "amount"] =
      ([kec "Transfer(address,address,uint256)",
        "0x" ++ padStartZeros 64 (jsDrop S 2),
        "0x" ++ padStartZeros 64 (jsDrop toV 2)],
       "0x" ++ padStartZeros 64 (natToHex amtI.toNat)) := by
  have hstep : generateEventLog kec transferEventW addrA S
      [Value.vStr toV, Value.vInt amtI] ["to", "amount"] =
      ([kec "Transfer(address,address,uint256)",
        topicOfValue kec (Value.vStr S), topicOfValue kec (Value.vStr toV)],
       (encodeAbiParameters
         [{ name := "amount", type := "uint256", indexed := false, components := [] }]
         [Value.vInt amtI]).getD "0x") := rfl
  rw [hstep, topicOfValue_hexStr kec S hS, topicOfValue_hexStr kec toV hto,
    encodeAbiParameters_single _ _ _ (encodeWord_uint256 amtI hlo hhi)]
  rfl

/-- Claim C6: mining a `transfer(to, amount)` transaction against an ABI
whose only matching event is
`Transfer(address indexed from, address indexed to, uint256 amount)`
produces exactly one log for that transaction, with topic 0 the keccak
hash of `"Transfer(address,address,uint256)"`, topic 1 the transaction
sender left-padded to 32 bytes, topic 2 the `to` argument left-padded to
32 bytes, and data that ABI-decodes as a single uint256 equal to `amount`;
moreover (final conjunct) the sender wins topic 1 even when the function
also has an argument named `from`. -/
theorem claim_C6 (kec : String → String) (c : Blockchain) (tx : Transaction)
    (t0 time : Nat) (entry : ContractEntry) (toV : String) (amt : Nat)
    (hmem : c.mempool = [{ tx := tx, addedAt := t0 }])
    (hreg : c.registry.get tx.toAddr = some entry)
    (hpayload : tx.data.payload =
      some ("transfer", [Value.vStr toV, Value.vInt ((amt : Nat) : Int)]))
    (hfn : getAbiFunction entry.abi "transfer" = some transferFnW)
    (hev : findMatchingEvents entry.abi "transfer" = [transferEventW])
    (hfrom : jsStartsWith tx.fromAddr "0x" = true)
    (hto : jsStartsWith toV "0x" = true)
    (hamt : amt < 2 ^ 256) :
    ((Blockchain.mineBlock kec c time).2.receipts.map fun r => r.logs) =
      [[{ address := tx.toAddr,
          topics := [kec "Transfer(address,address,uint256)",
                     "0x" ++ padStartZeros 64 (jsDrop tx.fromAddr 2),
                     "0x" ++ padStartZeros 64 (jsDrop toV 2)],
          data := "0x" ++ padStartZeros 64 (natToHex amt),
          blockNumber := c.latestBlock.number + 1,
          blockHash := generateBlockHash (c.latestBlock.number + 1),
          transactionHash := tx.hash, transactionIndex := 0, logIndex := 0 }]] ∧
    decodeSingleUint256 ("0x" ++ padStartZeros 64 (natToHex amt)) =
      some ((amt : Nat) : Int) ∧
    (∀ S2 fromArg toV2 : String, ∀ amt2 : Int,
      jsStartsWith S2 "0x" = true → jsStartsWith toV2 "0x" = true →
      (generateEventLog kec transferEventW tx.toAddr S2
        [Value.vStr fromArg, Value.vStr toV2, Value.vInt amt2]
        ["from", "to", "amount"]).1 =
        [kec "Transfer(address,address,uint256)",
         "0x" ++ padStartZeros 64 (jsDrop S2 2),
         "0x" ++ padStartZeros 64 (jsDrop toV2 2)]) := by
  have hdec : decodeFunctionData entry.abi tx.data =
      some ("transfer", [Value.vStr toV, Value.vInt ((amt : Nat) : Int)]) := by
    unfold decodeFunctionData
    rw [hpayload]
    simp [hfn]
  have hlo : (0 : Int) ≤ ((amt : Nat) : Int) := by positivity
  have hhi : ((amt : Nat) : Int) < (2 : Int) ^ 256 := by exact_mod_cast hamt
  have hglog := generateEventLog_transfer kec tx.toAddr tx.fromAddr toV
    ((amt : Nat) : Int) hfrom hto hlo hhi
  have htoNat : (((amt : Nat) : Int)).toNat = amt := by simp
  rw [htoNat] at hglog
  have hlogs2 : (executeTransaction kec c.registry c.state tx
      (c.latestBlock.number + 1) (generateBlockHash (c.latestBlock.number + 1)) 0).2 =
      [{ address := tx.toAddr,
         topics := [kec "Transfer(address,address,uint256)",
                    "0x" ++ padStartZeros 64 (jsDrop tx.fromAddr 2),
                    "0x" ++ padStartZeros 64 (jsDrop toV 2)],
         data := "0x" ++ padStartZeros 64 (natToHex amt),
         blockNumber := c.latestBlock.number + 1,
         blockHash := generateBlockHash (c.latestBlock.number + 1),
         transactionHash := tx.hash, transactionIndex := 0, logIndex := 0 }] := by
    unfold executeTransaction
    simp only [hreg, hdec, hev, hfn]
    simp only [List.enum, List.enumFrom, List.map_cons, List.map_nil]
    rw [show (Option.map (fun f => List.map (fun x => x.name) f.inputs)
      (some transferFnW)).getD [] = ["to", "amount"] from rfl]
    rw [hglog]
  refine ⟨?_, decodeSingleUint256_encode amt hamt, ?_⟩
  · unfold Blockchain.mineBlock execPending
    simp only [hmem, List.map_cons, List.map_nil, execPending]
    rw [hlogs2]
  · intro S2 fromArg toV2 amt2 hS2 hto2
    have hstep2 : (generateEventLog kec transferEventW tx.toAddr S2
        [Value.vStr fromArg, Value.vStr toV2, Value.vInt amt2]
        ["from", "to", "amount"]).1 =
        [kec "Transfer(address,address,uint256)",
         topicOfValue kec (Value.vStr S2), topicOfValue kec (Value.vStr toV2)] := rfl
    rw [hstep2, topicOfValue_hexStr kec S2 hS2, topicOfValue_hexStr kec toV2 hto2]


def toRecipW : String := "0x00000000000000000000000000000000000000aa"

def transferTxW : Transaction :=
  { hash := generateTxHash 0, fromAddr := senderW, toAddr := addr1W,
    data := ⟨"0xa9059cbb", some ("transfer",
      [Value.vStr toRecipW, Value.vInt ((1000 : Nat) : Int)])⟩,
    value := 0, nonce := 0 }

def cTransferW : Blockchain :=
  { registry := regW, blockTime := 1, overrides := none,
    blocks := [{ number := 0, hash := GENESIS_HASH, parentHash := GENESIS_HASH,
                 timestamp := 0, transactions := [], receipts := [] }],
    mempool := [{ tx := transferTxW, addedAt := 0 }],
    state := StateStore.empty, txNonce := 1, receipts := fun _ => none }

theorem claim_C6_witness :
    ((Blockchain.mineBlock kecId cTransferW 7).2.receipts.map fun r => r.logs) =
      [[{ address := transferTxW.toAddr,
          topics := [kecId "Transfer(address,address,uint256)",
                     "0x" ++ padStartZeros 64 (jsDrop transferTxW.fromAddr 2),
                     "0x" ++ padStartZeros 64 (jsDrop toRecipW 2)],
          data := "0x" ++ padStartZeros 64 (natToHex 1000),
          blockNumber := cTransferW.latestBlock.number + 1,
          blockHash := generateBlockHash (cTransferW.latestBlock.number + 1),
          transactionHash := transferTxW.hash, transactionIndex := 0,
          logIndex := 0 }]] ∧
    decodeSingleUint256 ("0x" ++ padStartZeros 64 (natToHex 1000)) =
      some ((1000 : Nat) : Int) ∧
    (∀ S2 fromArg toV2 : String, ∀ amt2 : Int,
      jsStartsWith S2 "0x" = true → jsStartsWith toV2 "0x" = true →
      (generateEventLog kecId transferEventW transferTxW.toAddr S2
        [Value.vStr fromArg, Value.vStr toV2, Value.vInt amt2]
        ["from", "to", "amount"]).1 =
        [kecId "Transfer(address,address,uint256)",
         "0x" ++ padStartZeros 64 (jsDrop S2 2),
         "0x" ++ padStartZeros 64 (jsDrop toV2 2)]) :=
  claim_C6 kecId cTransferW transferTxW 0 7 ⟨addr1W, "Token", tokenAbiW⟩ toRecipW 1000
    rfl rfl rfl rfl rfl rfl rfl (by norm_num)


/-! ## Name-normalization and state-key lemmas (claim C2) -/

theorem strLength_ne_zero (X : String) (hX : X ≠ "") : X.length ≠ 0 := by
  intro h
  apply hX
  apply strExt
  have h2 : X.data.length = 0 := h
  rw [List.length_eq_zero] at h2
  rw [h2]

theorem jsStartsWith_get_set (X : String) : jsStartsWith ("get" ++ X) "set" = false := by
  unfold jsStartsWith
  rw [String.data_append]
  rfl

theorem normalizeFnName_setX (X : String) (hX : X ≠ "") :
    StateStore.normalizeFnName ("set" ++ X) = lowerFirst X := by
  have hlen : ("set" ++ X).length = 3 + X.length := strLength_append "set" X
  have hX0 := strLength_ne_zero X hX
  have h3a : ("set" : String).length = 3 := rfl
  have h3b : ("get" : String).length = 3 := rfl
  unfold StateStore.normalizeFnName
  rw [if_neg ?hne]
  case hne =>
    rintro (h | h) <;>
      (have hc := congrArg String.length h; rw [hlen] at hc; omega)
  rw [if_pos ⟨jsStartsWith_append "set" X, by omega⟩]
  rw [show jsDrop ("set" ++ X) 3 = X from jsDrop_append "set" X]

theorem normalizeFnName_getX (X : String) (hX : X ≠ "") :
    StateStore.normalizeFnName ("get" ++ X) = lowerFirst X := by
  have hlen : ("get" ++ X).length = 3 + X.length := strLength_append "get" X
  have hX0 := strLength_ne_zero X hX
  have h3a : ("set" : String).length = 3 := rfl
  have h3b : ("get" : String).length = 3 := rfl
  unfold StateStore.normalizeFnName
  rw [if_neg ?hne]
  case hne =>
    rintro (h | h) <;>
      (have hc := congrArg String.length h; rw [hlen] at hc; omega)
  rw [if_neg ?hset]
  case hset =>
    rintro ⟨hpre, _⟩
    rw [jsStartsWith_get_set X] at hpre
    exact Bool.false_ne_true hpre
  rw [if_pos ⟨jsStartsWith_append "get" X, by omega⟩]
  rw [show jsDrop ("get" ++ X) 3 = X from jsDrop_append "get" X]

theorem makeKey_normalize_eq (C f1 f2 : String) (ks : List Value)
    (h : StateStore.normalizeFnName f1 = StateStore.normalizeFnName f2) :
    StateStore.makeKey C f1 ks = StateStore.makeKey C f2 ks := by
  unfold StateStore.makeKey
  rw [h]

theorem makeKey_addr_ne (C1 C2 f1 f2 : String) (ks1 ks2 : List Value)
    (h : jsToLower C1 ≠ jsToLower C2)
    (hf : StateStore.normalizeFnName f1 = StateStore.normalizeFnName f2)
    (hk : ks1 = ks2) :
    StateStore.makeKey C1 f1 ks1 ≠ StateStore.makeKey C2 f2 ks2 := by
  subst hk
  unfold StateStore.makeKey
  rw [hf]
  intro heq
  apply h
  have hd := congrArg String.data heq
  simp only [String.data_append, List.append_assoc] at hd
  exact strExt _ _ (List.append_cancel_right hd)

theorem stateStore_get_set_eq (s : StateStore) (C fn : String) (ks vals : List Value)
    (C2 fn2 : String) (ks2 : List Value)
    (hk : StateStore.makeKey C2 fn2 ks2 = StateStore.makeKey C fn ks) :
    (s.set C fn ks vals).get C2 fn2 ks2 = some vals := by
  unfold StateStore.set StateStore.get
  simp [hk]

theorem stateStore_get_set_ne (s : StateStore) (C fn : String) (ks vals : List Value)
    (C2 fn2 : String) (ks2 : List Value)
    (hk : StateStore.makeKey C2 fn2 ks2 ≠ StateStore.makeKey C fn ks) :
    (s.set C fn ks vals).get C2 fn2 ks2 = s.get C2 fn2 ks2 := by
  unfold StateStore.set StateStore.get
  simp [hk]

/-- Executing a decoded setter call `setX(k1, ..., kn, v)` stores `[v]`
under the key arguments `k1 ... kn` (for a single-argument setter the key
list is empty), exactly the `args.pop()` convention of the source. -/
theorem dropLast_cons_concat (k0 : Value) (krest : List Value) (v : Value) :
    (k0 :: (krest ++ [v])).dropLast = k0 :: krest := by
  rw [← List.cons_append, List.dropLast_concat]

theorem getLastD_cons_concat (k0 : Value) (krest : List Value) (v : Value) :
    (k0 :: (krest ++ [v])).getLastD Value.vNull = v := by
  rw [← List.cons_append, List.getLastD_concat]

theorem executeTransaction_setter (kec : String → String) (reg : ContractRegistry)
    (store : StateStore) (tx : Transaction) (bn : Nat) (bh : String) (i : Nat)
    (entry : ContractEntry) (setS : String) (ks : List Value) (v : Value)
    (hreg : reg.get tx.toAddr = some entry)
    (hdec : decodeFunctionData entry.abi tx.data = some (setS, ks ++ [v])) :
    (executeTransaction kec reg store tx bn bh i).1 =
      store.set tx.toAddr setS ks [v] := by
  unfold executeTransaction
  simp only [hreg, hdec]
  rcases ks with _ | ⟨k0, krest⟩
  · simp
  · have h1 : (k0 :: (krest ++ [v])).length > 0 := by simp
    have h2 : ¬((k0 :: (krest ++ [v])).length = 1) := by simp
    simp only [List.cons_append, h1, h2, if_true, if_false, ite_true, ite_false,
      dropLast_cons_concat, getLastD_cons_concat]

/-! ## One-transaction scenario composition (claim C2) -/

/-- Submit one transaction and mine: the chain state after
`sendTransaction` followed by `mineBlock` (in instant mode the submission
already mines; the explicit `mineBlock` then mines an empty block). -/
def mineOneTx (kec : String → String) (c : Blockchain) (fromA toA : String)
    (d : CallData) (vv : Int) (t1 t2 : Nat) : Blockchain :=
  ((Blockchain.sendTransaction kec c fromA toA d vv t1).2.mineBlock kec t2).1

theorem mineOneTx_preserves (kec : String → String) (c : Blockchain)
    (fromA toA : String) (d : CallData) (vv : Int) (t1 t2 : Nat) :
    (mineOneTx kec c fromA toA d vv t1 t2).registry = c.registry ∧
    (mineOneTx kec c fromA toA d vv t1 t2).overrides = c.overrides ∧
    (mineOneTx kec c fromA toA d vv t1 t2).mempool = [] := by
  by_cases hbt : c.blockTime = 0 <;>
    simp only [mineOneTx, Blockchain.sendTransaction, hbt, if_true, if_false] <;>
    exact ⟨rfl, rfl, rfl⟩

/-- After submitting and mining one decodable setter transaction starting
from an empty mempool, the state store is the old store with `[v]` written
under the setter's key (in both interval and instant mining modes). -/
theorem mineOneTx_setter_state (kec : String → String) (c : Blockchain)
    (fromA toA : String) (d : CallData) (vv : Int) (t1 t2 : Nat)
    (entry : ContractEntry) (setS : String) (ks : List Value) (v : Value)
    (hmem : c.mempool = [])
    (hreg : c.registry.get toA = some entry)
    (hdec : decodeFunctionData entry.abi d = some (setS, ks ++ [v])) :
    (mineOneTx kec c fromA toA d vv t1 t2).state =
      c.state.set toA setS ks [v] := by
  by_cases hbt : c.blockTime = 0
  · simp only [mineOneTx, Blockchain.sendTransaction, hbt, if_true]
    -- the submission already mined; the outer mineBlock mines an empty mempool
    rw [show ∀ cm : Blockchain, cm.mempool = [] →
        (Blockchain.mineBlock kec cm t2).1.state = cm.state from
      fun cm hm => by unfold Blockchain.mineBlock; simp [hm, execPending]]
    · unfold Blockchain.mineBlock
      simp only [hmem, List.map_cons, List.map_nil, execPending]
      exact executeTransaction_setter kec c.registry c.state _ _ _ 0 entry setS ks v hreg hdec
    · rfl
  · simp only [mineOneTx, Blockchain.sendTransaction, hbt, if_false]
    unfold Blockchain.mineBlock
    simp only [hmem, List.map_cons, List.map_nil, execPending, List.nil_append]
    exact executeTransaction_setter kec c.registry c.state _ _ _ 0 entry setS ks v hreg hdec


/-- Claim C2 (amended): submitting and mining `setX(k1,...,kn,v)` on
contract C, then calling `getX(k1,...,kn)` with no override configured for
the getter, returns exactly the stored `v` (ABI-encoded against the
getter's outputs); the bare-name read `x(k1,...,kn)` does the same
PROVIDED the bare name is normalization-neutral (it does not itself start
with `set`/`get` of length > 3 and is not literally `set`/`get`); and a
different contract address receiving the same setter call does not affect
C's stored value. -/
theorem claim_C2 (kec : String → String) (c : Blockchain) (X : String)
    (hX : X ≠ "") (addrC : String) (entry : ContractEntry) (ks : List Value)
    (v : Value) (fromA : String) (vv : Int) (t1 t2 : Nat)
    (dSet dGet : CallData) (gf : AbiFunction) (encOut : String)
    (hmem : c.mempool = [])
    (hreg : c.registry.get addrC = some entry)
    (hdSet : decodeFunctionData entry.abi dSet = some ("set" ++ X, ks ++ [v]))
    (hdGet : decodeFunctionData entry.abi dGet = some ("get" ++ X, ks))
    (hgf : getAbiFunction entry.abi ("get" ++ X) = some gf)
    (hout : gf.outputs.length ≠ 0)
    (hov : ∀ os, c.overrides = some os →
      OverrideStore.has os addrC ("get" ++ X) none = false)
    (henc : encodeAbiParameters gf.outputs [v] = some encOut) :
    Blockchain.call (mineOneTx kec c fromA addrC dSet vv t1 t2) addrC dGet =
      .ok encOut ∧
    (∀ dBare bf encB,
      decodeFunctionData entry.abi dBare = some (lowerFirst X, ks) →
      getAbiFunction entry.abi (lowerFirst X) = some bf →
      bf.outputs.length ≠ 0 →
      (∀ os, c.overrides = some os →
        OverrideStore.has os addrC (lowerFirst X) none = false) →
      StateStore.normalizeFnName (lowerFirst X) = lowerFirst X →
      encodeAbiParameters bf.outputs [v] = some encB →
      Blockchain.call (mineOneTx kec c fromA addrC dSet vv t1 t2) addrC dBare =
        .ok encB) ∧
    (∀ addr2 entry2,
      jsToLower addr2 ≠ jsToLower addrC →
      c.registry.get addr2 = some entry2 →
      decodeFunctionData entry2.abi dSet = some ("set" ++ X, ks ++ [v]) →
      Blockchain.call
        (mineOneTx kec (mineOneTx kec c fromA addrC dSet vv t1 t2)
          fromA addr2 dSet vv t2 t2) addrC dGet = .ok encOut) := by
  obtain ⟨hregP, hovP, hmemP⟩ := mineOneTx_preserves kec c fromA addrC dSet vv t1 t2
  have hstate := mineOneTx_setter_state kec c fromA addrC dSet vv t1 t2 entry
    ("set" ++ X) ks v hmem hreg hdSet
  have hnorm : StateStore.normalizeFnName ("set" ++ X) =
      StateStore.normalizeFnName ("get" ++ X) := by
    rw [normalizeFnName_setX X hX, normalizeFnName_getX X hX]
  refine ⟨?_, ?_, ?_⟩
  · rw [call_resolves (mineOneTx kec c fromA addrC dSet vv t1 t2) addrC dGet entry
      ("get" ++ X) ks gf (by rw [hregP]; exact hreg) hdGet hgf hout
      (fun os hos => hov os (by rw [hovP] at hos; exact hos))]
    rw [hstate]
    rw [stateStore_get_set_eq c.state addrC ("set" ++ X) ks [v] addrC ("get" ++ X) ks
      (makeKey_normalize_eq addrC ("get" ++ X) ("set" ++ X) ks hnorm.symm)]
    rw [Option.getD_some, henc]
  · intro dBare bf encB hdBare hbf hboutNe hovB hbneutral hencB
    rw [call_resolves (mineOneTx kec c fromA addrC dSet vv t1 t2) addrC dBare entry
      (lowerFirst X) ks bf (by rw [hregP]; exact hreg) hdBare hbf hboutNe
      (fun os hos => hovB os (by rw [hovP] at hos; exact hos))]
    rw [hstate]
    rw [stateStore_get_set_eq c.state addrC ("set" ++ X) ks [v] addrC (lowerFirst X) ks
      (makeKey_normalize_eq addrC (lowerFirst X) ("set" ++ X) ks
        (by rw [hbneutral, normalizeFnName_setX X hX]))]
    rw [Option.getD_some, hencB]
  · intro addr2 entry2 hne hreg2 hdec2
    obtain ⟨hregP2, hovP2, hmemP2⟩ := mineOneTx_preserves kec
      (mineOneTx kec c fromA addrC dSet vv t1 t2) fromA addr2 dSet vv t2 t2
    have hstate2 := mineOneTx_setter_state kec
      (mineOneTx kec c fromA addrC dSet vv t1 t2) fromA addr2 dSet vv t2 t2 entry2
      ("set" ++ X) ks v hmemP (by rw [hregP]; exact hreg2) hdec2
    rw [call_resolves _ addrC dGet entry ("get" ++ X) ks gf
      (by rw [hregP2, hregP]; exact hreg) hdGet hgf hout
      (fun os hos => hov os (by rw [hovP2, hovP] at hos; exact hos))]
    rw [hstate2]
    rw [stateStore_get_set_ne _ addr2 ("set" ++ X) ks [v] addrC ("get" ++ X) ks
      (makeKey_addr_ne addrC addr2 ("get" ++ X) ("set" ++ X) ks ks
        (fun hc => hne hc.symm) hnorm.symm rfl)]
    rw [hstate]
    rw [stateStore_get_set_eq c.state addrC ("set" ++ X) ks [v] addrC ("get" ++ X) ks
      (makeKey_normalize_eq addrC ("get" ++ X) ("set" ++ X) ks hnorm.symm)]
    rw [Option.getD_some, henc]


def uintInParamW : AbiParam := { name := "v", type := "uint256", indexed := false, components := [] }

def addrInParamW : AbiParam := { name := "account", type := "address", indexed := false, components := [] }

def settingsAbiW : Abi := [
  .func { name := "setSettings", inputs := [uintInParamW], outputs := [] },
  .func { name := "settings", inputs := [], outputs := [uintOutW] },
  .func { name := "getSettings", inputs := [], outputs := [uintOutW] }]

def regSettingsW : ContractRegistry := ContractRegistry.register ⟨[]⟩ addr1W "S" settingsAbiW

/-- The settings chain after mining `setSettings(7)`. -/
def cSettingsMinedW : Blockchain :=
  mineOneTx kecId (Blockchain.init regSettingsW 1 none 0) senderW addr1W
    ⟨"0xee112233", some ("setSettings", [Value.vInt 7])⟩ 0 1 2

set_option maxRecDepth 4000 in
/-- Claim C2, counterexample to the bare-name half as universally stated:
for the setter `setSettings` (X = "Settings"), the bare read `settings()`
does NOT return the stored 7 — the store normalizes the bare name
`settings` to `tings` (it starts with `set` and is longer than 3), so the
read misses the bucket and falls back to the synthesized default 1, while
`getSettings()` does return the stored 7. -/
theorem claim_C2_counterexample :
    Blockchain.call cSettingsMinedW addr1W ⟨"0xff000001", some ("getSettings", [])⟩ =
      .ok "0x0000000000000000000000000000000000000000000000000000000000000007" ∧
    Blockchain.call cSettingsMinedW addr1W ⟨"0xff000002", some ("settings", [])⟩ =
      .ok "0x0000000000000000000000000000000000000000000000000000000000000001" ∧
    ¬ (Blockchain.call cSettingsMinedW addr1W ⟨"0xff000002", some ("settings", [])⟩ =
      .ok "0x0000000000000000000000000000000000000000000000000000000000000007") := by
  have hov : ∀ fn : String, ∀ os, cSettingsMinedW.overrides = some os →
      OverrideStore.has os addr1W fn none = false := by
    intro fn os hos
    exact Option.noConfusion (show (none : Option OverrideStore) = some os from hos)
  have hget : Blockchain.call cSettingsMinedW addr1W
      ⟨"0xff000001", some ("getSettings", [])⟩ =
      .ok "0x0000000000000000000000000000000000000000000000000000000000000007" := by
    rw [call_resolves cSettingsMinedW addr1W ⟨"0xff000001", some ("getSettings", [])⟩
      ⟨addr1W, "S", settingsAbiW⟩ "getSettings" []
      { name := "getSettings", inputs := [], outputs := [uintOutW] }
      rfl rfl rfl (by decide) (hov "getSettings")]
    rw [show StateStore.get cSettingsMinedW.state addr1W "getSettings" [] =
      some [Value.vInt 7] from rfl]
    rw [Option.getD_some]
    rw [show encodeAbiParameters [uintOutW] [Value.vInt 7] =
      some "0x0000000000000000000000000000000000000000000000000000000000000007" from
      by decide]
  have hbare : Blockchain.call cSettingsMinedW addr1W
      ⟨"0xff000002", some ("settings", [])⟩ =
      .ok "0x0000000000000000000000000000000000000000000000000000000000000001" := by
    rw [call_resolves cSettingsMinedW addr1W ⟨"0xff000002", some ("settings", [])⟩
      ⟨addr1W, "S", settingsAbiW⟩ "settings" []
      { name := "settings", inputs := [], outputs := [uintOutW] }
      rfl rfl rfl (by decide) (hov "settings")]
    rw [show StateStore.get cSettingsMinedW.state addr1W "settings" [] = none from rfl]
    rw [show (none : Option (List Value)).getD (generateDefaultValues [uintOutW]) =
      generateDefaultValues [uintOutW] from rfl]
    rw [show generateDefaultValues [uintOutW] = [Value.vInt 1] from by
      unfold generateDefaultValues uintOutW
      rw [List.map_cons, List.map_nil, gdv_scalar_uint256]]
    rw [show encodeAbiParameters [uintOutW] [Value.vInt 1] =
      some "0x0000000000000000000000000000000000000000000000000000000000000001" from
      by decide]
  refine ⟨hget, hbare, ?_⟩
  intro hcontra
  rw [hbare] at hcontra
  simp only [Except.ok.injEq] at hcontra
  exact absurd hcontra (by decide)

def balanceAbiW : Abi := [
  .func { name := "setBalance", inputs := [addrInParamW, uintInParamW], outputs := [] },
  .func { name := "getBalance", inputs := [addrInParamW], outputs := [uintOutW] },
  .func { name := "balance", inputs := [addrInParamW], outputs := [uintOutW] }]

def regBalanceW : ContractRegistry :=
  ContractRegistry.register
    (ContractRegistry.register ⟨[]⟩ addr1W "B" balanceAbiW) addr2W "B2" balanceAbiW

def cBalanceW : Blockchain := Blockchain.init regBalanceW 1 none 0

def dSetBalW : CallData :=
  ⟨"0x01010101", some ("setBalance", [Value.vStr senderW, Value.vInt 42])⟩

def dGetBalW : CallData := ⟨"0x02020202", some ("getBalance", [Value.vStr senderW])⟩

def dBareBalW : CallData := ⟨"0x03030303", some ("balance", [Value.vStr senderW])⟩

def getBalanceFnW : AbiFunction :=
  { name := "getBalance", inputs := [addrInParamW], outputs := [uintOutW] }

def bareBalanceFnW : AbiFunction :=
  { name := "balance", inputs := [addrInParamW], outputs := [uintOutW] }

def encBal42W : String := "0x000000000000000000000000000000000000000000000000000000000000002a"

set_option maxRecDepth 4000 in
theorem claim_C2_witness :
    (Blockchain.call (mineOneTx kecId cBalanceW senderW addr1W dSetBalW 0 1 2)
        addr1W dGetBalW = .ok encBal42W ∧
      (∀ dBare bf encB,
        decodeFunctionData balanceAbiW dBare = some (lowerFirst "Balance", [Value.vStr senderW]) →
        getAbiFunction balanceAbiW (lowerFirst "Balance") = some bf →
        bf.outputs.length ≠ 0 →
        (∀ os, cBalanceW.overrides = some os →
          OverrideStore.has os addr1W (lowerFirst "Balance") none = false) →
        StateStore.normalizeFnName (lowerFirst "Balance") = lowerFirst "Balance" →
        encodeAbiParameters bf.outputs [Value.vInt 42] = some encB →
        Blockchain.call (mineOneTx kecId cBalanceW senderW addr1W dSetBalW 0 1 2)
          addr1W dBare = .ok encB) ∧
      (∀ addr2 entry2,
        jsToLower addr2 ≠ jsToLower addr1W →
        cBalanceW.registry.get addr2 = some entry2 →
        decodeFunctionData entry2.abi dSetBalW =
          some ("set" ++ "Balance", [Value.vStr senderW] ++ [Value.vInt 42]) →
        Blockchain.call
          (mineOneTx kecId (mineOneTx kecId cBalanceW senderW addr1W dSetBalW 0 1 2)
            senderW addr2 dSetBalW 0 2 2) addr1W dGetBalW = .ok encBal42W)) ∧
    Blockchain.call
      (mineOneTx kecId (mineOneTx kecId cBalanceW senderW addr1W dSetBalW 0 1 2)
        senderW addr2W dSetBalW 0 2 2) addr1W dGetBalW = .ok encBal42W ∧
    Blockchain.call (mineOneTx kecId cBalanceW senderW addr1W dSetBalW 0 1 2)
      addr1W dBareBalW = .ok encBal42W := by
  have main := claim_C2 kecId cBalanceW "Balance" (by decide) addr1W
    ⟨addr1W, "B", balanceAbiW⟩ [Value.vStr senderW] (Value.vInt 42) senderW 0 1 2
    dSetBalW dGetBalW getBalanceFnW encBal42W rfl rfl rfl rfl rfl (by decide)
    (fun os hos => Option.noConfusion
      (show (none : Option OverrideStore) = some os from hos))
    (by decide)
  refine ⟨⟨main.1, ?_, main.2.2⟩, ?_, ?_⟩
  · intro dBare bf encB h1 h2 h3 h4 h5 h6
    exact main.2.1 dBare bf encB h1 h2 h3 h4 h5 h6
  · exact main.2.2 addr2W ⟨addr2W, "B2", balanceAbiW⟩ (by decide) rfl rfl
  · exact main.2.1 dBareBalW bareBalanceFnW encBal42W rfl rfl (by decide)
      (fun os hos => Option.noConfusion
        (show (none : Option OverrideStore) = some os from hos))
      (by decide) (by decide)

end AbiNode
